import Mathlib

/-!
# Marching squares, parallelised by row ranges (`tema1_par.c`)

A shallow embedding of the three worker phases of `tema1_par.c`
(`rescale_image`, `sample_grid`, `march`, with the helper `update_image`)
and of the sequential composition of the worker tasks that the barriers
of `thread_function` induce.

Conventions of the embedding.

* `int` values that the program only uses as non-negative sizes, counters and
  task numbers are natural numbers; the arithmetic on them is the arithmetic of
  the natural numbers, that is, the values stay within the range of `int`.
* An `unsigned char` is a `Fin 256`; arithmetic on it is done on the promoted
  value (`.val`) and reduced `% 256` where the program stores the result into an
  `unsigned char`.
* The memory a `data` pointer designates is a total map from element offsets
  (integers) to pixels, so that every load of the program has a value; which
  offsets belong to the raster (`0 ≤ n < x * y`) is stated separately. The
  values at the other offsets stand for memory the raster does not own: a
  result that depends on them is not determined by the raster.
* A `for` loop with bounds `lo`, `hi` is `for_loop lo hi body`, a left fold of
  the body over `lo, lo+1, ..., hi-1`.
* `start_i` and `end_i` are computed by `rescale_image` and `sample_grid`
  through a `double` (`thread_id * (double)p / P`, truncated on conversion to
  `int`); the embedding uses the integer quotient that `march` computes, which
  is the value of the truncated `double` quotient for the sizes at hand.
-/

namespace MarchingSquares

/-! ## Constants -/

def CONTOUR_CONFIG_COUNT : Nat := 16
def STEP : Nat := 8
def SIGMA : Nat := 200
def RESCALE_X : Nat := 2048
def RESCALE_Y : Nat := 2048

/-! ## Data model -/

/-- Modelled from the spec: the pixel type of `helpers.h`, an RGB triple with
8-bit channels; the field names are the ones the source uses. -/
structure ppm_pixel where
  red : Fin 256
  green : Fin 256
  blue : Fin 256
deriving DecidableEq, Repr

/-- Modelled from the spec: the raster type of `helpers.h`. The source indexes
pixel `(i, j)` at `data[i * y + j]` with `0 ≤ i < x`, `0 ≤ j < y`. -/
structure ppm_image where
  x : Nat
  y : Nat
  data : Int → ppm_pixel

/-- The occupancy grid `unsigned char **grid`: `grid i j` is `grid[i][j]`. -/
abbrev Grid := Nat → Nat → Fin 256

/-- The scalar fields of `struct thread_data`. The objects behind its pointer
fields (`grid`, `image`, `new_image`, `contour_map`) are passed to the phases
as explicit arguments. -/
structure thread_data where
  thread_id : Nat
  step_x : Nat
  step_y : Nat
  P : Nat
deriving DecidableEq, Repr

/-! ## Control structure -/

/-- The loop `for (int i = lo; i < hi; i++) s = body i s`. -/
def for_loop {σ : Type} (lo hi : Nat) (body : Nat → σ → σ) (s : σ) : σ :=
  (List.range' lo (hi - lo)).foldl (fun acc i => body i acc) s

/-- Source: `int min(int a, int b) { return (a > b) ? b : a; }`. -/
def min (a b : Nat) : Nat := if a > b then b else a

/-- The first index of task `thread_id` when `N` indices are split among `P`
tasks: `thread_id * N / P`. -/
def start_i (thread_id N P : Nat) : Nat := thread_id * N / P

/-- The exclusive last index of task `thread_id`:
`min((thread_id + 1) * N / P, N)`. -/
def end_i (thread_id N P : Nat) : Nat := min ((thread_id + 1) * N / P) N

/-! ## Stores -/

/-- The store `data[k].red = v`. -/
def set_red (data : Int → ppm_pixel) (k : Int) (v : Fin 256) : Int → ppm_pixel :=
  fun n => if n = k then { data n with red := v } else data n

/-- The store `data[k].green = v`. -/
def set_green (data : Int → ppm_pixel) (k : Int) (v : Fin 256) : Int → ppm_pixel :=
  fun n => if n = k then { data n with green := v } else data n

/-- The store `data[k].blue = v`. -/
def set_blue (data : Int → ppm_pixel) (k : Int) (v : Fin 256) : Int → ppm_pixel :=
  fun n => if n = k then { data n with blue := v } else data n

/-- The store `grid[i][j] = v`. -/
def grid_set (grid : Grid) (i j : Nat) (v : Fin 256) : Grid :=
  fun a b => if a = i ∧ b = j then v else grid a b

/-! ## The phases -/

/-- Source: `update_image(image, contour, x, y)`, lines 60-71. -/
def update_image (image contour : ppm_image) (x y : Nat) : ppm_image :=
  for_loop 0 contour.x (fun i image =>
    for_loop 0 contour.y (fun j image =>
      let contour_pixel_index : Int := ((contour.x * i + j : Nat) : Int)
      let image_pixel_index : Int := (((x + i) * image.y + y + j : Nat) : Int)
      let image := { image with
        data := set_red image.data image_pixel_index (contour.data contour_pixel_index).red }
      let image := { image with
        data := set_green image.data image_pixel_index (contour.data contour_pixel_index).green }
      let image := { image with
        data := set_blue image.data image_pixel_index (contour.data contour_pixel_index).blue }
      image) image) image

/-- Source: `sample_grid(data)`, lines 77-131; `image` is `*data->new_image`
and `grid` is `data->grid`. -/
def sample_grid (data : thread_data) (image : ppm_image) (grid : Grid) : Grid :=
  let step_x := data.step_x
  let step_y := data.step_y
  let sigma := SIGMA
  let p := image.x / step_x
  let q := image.y / step_y
  let start_i := start_i data.thread_id p data.P
  let end_i := end_i data.thread_id p data.P
  let grid := for_loop start_i end_i (fun i grid =>
    for_loop 0 q (fun j grid =>
      let curr_pixel := image.data ((i * step_x * image.y + j * step_y : Nat) : Int)
      let curr_color :=
        (curr_pixel.red.val + curr_pixel.green.val + curr_pixel.blue.val) / 3 % 256
      if curr_color > sigma then grid_set grid i j 0 else grid_set grid i j 1) grid) grid
  let grid := grid_set grid p q 0
  let grid := for_loop start_i end_i (fun i grid =>
    let curr_pixel := image.data ((i * step_x * image.y + image.x : Nat) - 1 : Int)
    let curr_color :=
      (curr_pixel.red.val + curr_pixel.green.val + curr_pixel.blue.val) / 3 % 256
    if curr_color > sigma then grid_set grid i q 0 else grid_set grid i q 1) grid
  let grid := for_loop 0 q (fun j grid =>
    let curr_pixel := image.data (((image.x : Int) - 1) * image.y + ((j * step_y : Nat) : Int))
    let curr_color :=
      (curr_pixel.red.val + curr_pixel.green.val + curr_pixel.blue.val) / 3 % 256
    if curr_color > sigma then grid_set grid p j 0 else grid_set grid p j 1) grid
  grid

/-- The offsets of `image->data` that `sample_grid(data)` loads, in program
order: lines 91, 107 and 119. -/
def sample_grid_reads (data : thread_data) (image : ppm_image) : List Int :=
  let step_x := data.step_x
  let step_y := data.step_y
  let p := image.x / step_x
  let q := image.y / step_y
  let start_i := start_i data.thread_id p data.P
  let end_i := end_i data.thread_id p data.P
  let reads : List Int := for_loop start_i end_i (fun i reads =>
    for_loop 0 q (fun j reads =>
      reads ++ [((i * step_x * image.y + j * step_y : Nat) : Int)]) reads) []
  let reads := for_loop start_i end_i (fun i reads =>
    reads ++ [((i * step_x * image.y + image.x : Nat) - 1 : Int)]) reads
  let reads := for_loop 0 q (fun j reads =>
    reads ++ [((image.x : Int) - 1) * image.y + ((j * step_y : Nat) : Int)]) reads
  reads

/-- Source: `march(data)`, lines 137-155; `image` is `*data->new_image`,
`grid` is `data->grid` and `contour_map k` is `*contour_map[k]`. -/
def march (data : thread_data) (contour_map : Nat → ppm_image) (grid : Grid)
    (image : ppm_image) : ppm_image :=
  let step_x := data.step_x
  let step_y := data.step_y
  let p := image.x / step_x
  let q := image.y / step_y
  let start_i := start_i data.thread_id p data.P
  let end_i := end_i data.thread_id p data.P
  for_loop start_i end_i (fun i image =>
    for_loop 0 q (fun j image =>
      let k := (8 * (grid i j).val + 4 * (grid i (j + 1)).val
        + 2 * (grid (i + 1) (j + 1)).val + 1 * (grid (i + 1) j).val) % 256
      update_image image (contour_map k) (i * step_x) (j * step_y)) image) image

/-! ## Running a phase for every task -/

/-- One phase of `thread_function` executed by the tasks `0, 1, ..., P-1`, one
after the other. -/
def run_tasks {σ : Type} (P : Nat) (task : Nat → σ → σ) (s : σ) : σ :=
  for_loop 0 P task s

/-- The Sample stage: `sample_grid` for every task id. -/
def sample_stage (step_x step_y P : Nat) (image : ppm_image) (grid : Grid) : Grid :=
  run_tasks P (fun t grid => sample_grid ⟨t, step_x, step_y, P⟩ image grid) grid

/-- The Stamp stage: `march` for every task id. -/
def march_stage (step_x step_y P : Nat) (contour_map : Nat → ppm_image) (grid : Grid)
    (image : ppm_image) : ppm_image :=
  run_tasks P (fun t image => march ⟨t, step_x, step_y, P⟩ contour_map grid image) image

/-- The average brightness of a pixel, `(R + G + B) / 3` with integer division. -/
def average (px : ppm_pixel) : Nat :=
  (px.red.val + px.green.val + px.blue.val) / 3

/-- The value the sampling rule assigns to a pixel: `1` when its average
brightness is at most `200`, else `0`. -/
def dark (px : ppm_pixel) : Fin 256 :=
  if average px ≤ 200 then 1 else 0

/-! ## Rescaling and the whole run -/

/-- Modelled from the spec: the `float` operations and the resampler
`sample_bicubic` of `helpers.h`, which `rescale_image` calls; `F` stands for
`float`, `of_int` for the conversion `(float)i`, `div` for the division of two
`float`s, and `sample_bicubic image u v` for the three bytes the resampler
leaves in `sample[0]`, `sample[1]`, `sample[2]`. -/
structure resampler (F : Type) where
  of_int : Nat → F
  div : F → F → F
  sample_bicubic : ppm_image → F → F → Fin 256 × Fin 256 × Fin 256

/-- The raster a task's `data->new_image` designates: the raster read from the
input file (`image` of `main`) or the raster `main` allocates (`new_image`). -/
inductive image_ptr where
  | image
  | new_image
deriving DecidableEq, Repr

/-- Source: `rescale_image(data)`, lines 174-204; `image` is `*data->image` and
`new_image` is the raster `data->new_image` designates on entry. The result is
the new value of the pointer `data->new_image` and the raster `new_image`. -/
def rescale_image {F : Type} (rs : resampler F) (data : thread_data)
    (image new_image : ppm_image) : image_ptr × ppm_image :=
  if image.x ≤ RESCALE_X ∧ image.y ≤ RESCALE_Y then
    (image_ptr.image, new_image)
  else
    let new_image := { new_image with x := RESCALE_X }
    let new_image := { new_image with y := RESCALE_Y }
    let start_i := start_i data.thread_id new_image.x data.P
    let end_i := end_i data.thread_id new_image.x data.P
    let new_image := for_loop start_i end_i (fun i new_image =>
      for_loop 0 new_image.y (fun j new_image =>
        let u := rs.div (rs.of_int i) (rs.of_int (new_image.x - 1))
        let v := rs.div (rs.of_int j) (rs.of_int (new_image.y - 1))
        let sample := rs.sample_bicubic image u v
        let new_image := { new_image with
          data := set_red new_image.data ((i * new_image.y + j : Nat) : Int) sample.1 }
        let new_image := { new_image with
          data := set_green new_image.data ((i * new_image.y + j : Nat) : Int) sample.2.1 }
        let new_image := { new_image with
          data := set_blue new_image.data ((i * new_image.y + j : Nat) : Int) sample.2.2 }
        new_image) new_image) new_image
    (image_ptr.new_image, new_image)

/-- The objects `main` shares with the tasks: the two rasters, the grid, and for
every task `t` the pointer `arguments[t].new_image`. -/
structure program_state where
  image : ppm_image
  new_image : ppm_image
  grid : Grid
  arguments_new_image : Nat → image_ptr

/-- The raster a pointer designates. -/
def program_state.deref (st : program_state) (ptr : image_ptr) : ppm_image :=
  match ptr with
  | image_ptr.image => st.image
  | image_ptr.new_image => st.new_image

/-- The state after the raster a pointer designates has been assigned. -/
def program_state.store (st : program_state) (ptr : image_ptr) (img : ppm_image) :
    program_state :=
  match ptr with
  | image_ptr.image => { st with image := img }
  | image_ptr.new_image => { st with new_image := img }

/-- Line 209 for task `t`: `rescale_image(data)`. On entry `data->new_image` is
the raster `new_image` of `main` (line 305). -/
def rescale_phase {F : Type} (rs : resampler F) (P t : Nat) (st : program_state) :
    program_state :=
  let r := rescale_image rs ⟨t, STEP, STEP, P⟩ st.image st.new_image
  { st with
    new_image := r.2
    arguments_new_image := fun u => if u = t then r.1 else st.arguments_new_image u }

/-- Line 215 for task `t`: `sample_grid(data)`. -/
def sample_phase (P t : Nat) (st : program_state) : program_state :=
  { st with
    grid := sample_grid ⟨t, STEP, STEP, P⟩ (st.deref (st.arguments_new_image t)) st.grid }

/-- Line 221 for task `t`: `march(data)`. -/
def march_phase (contour_map : Nat → ppm_image) (P t : Nat) (st : program_state) :
    program_state :=
  st.store (st.arguments_new_image t)
    (march ⟨t, STEP, STEP, P⟩ contour_map st.grid (st.deref (st.arguments_new_image t)))

/-- The state `main` sets up before it creates the tasks (lines 251-307):
`image` is the raster read from the input file, `buffer` and `grid` are the
contents of the freshly allocated pixel buffer and grid. -/
def initial_state (image : ppm_image) (buffer : Int → ppm_pixel) (grid : Grid) :
    program_state :=
  { image := image
    new_image := { x := RESCALE_X, y := RESCALE_Y, data := buffer }
    grid := grid
    arguments_new_image := fun _ => image_ptr.new_image }

/-- The three phases of `thread_function`, each run for the tasks `0..P-1`
before the next one starts (the barriers of lines 212, 218 and 224). -/
def run_phases {F : Type} (rs : resampler F) (contour_map : Nat → ppm_image) (P : Nat)
    (st : program_state) : program_state :=
  let st := run_tasks P (rescale_phase rs P) st
  let st := run_tasks P (sample_phase P) st
  let st := run_tasks P (march_phase contour_map P) st
  st

/-- The raster `main` hands to `write_ppm` (line 327): `*arguments[0].new_image`. -/
def output (st : program_state) : ppm_image :=
  st.deref (st.arguments_new_image 0)

/-! ## Auxiliary definitions

Names for parts of the functions above, used to state lemmas about them. -/

/-- The body of the loops of `update_image` (lines 63-68) for the indices `i`, `j`. -/
def copy_pixel (contour : ppm_image) (x y i j : Nat) (image : ppm_image) : ppm_image :=
  let contour_pixel_index : Int := ((contour.x * i + j : Nat) : Int)
  let image_pixel_index : Int := (((x + i) * image.y + y + j : Nat) : Int)
  let image := { image with
    data := set_red image.data image_pixel_index (contour.data contour_pixel_index).red }
  let image := { image with
    data := set_green image.data image_pixel_index (contour.data contour_pixel_index).green }
  let image := { image with
    data := set_blue image.data image_pixel_index (contour.data contour_pixel_index).blue }
  image

/-- The offset line 91 loads for the grid cell `(i, j)`. -/
def interior_offset (step_x step_y : Nat) (image : ppm_image) (i j : Nat) : Int :=
  ((i * step_x * image.y + j * step_y : Nat) : Int)

/-- The offset line 107 loads for the grid cell `(i, q)`. -/
def column_offset (step_x : Nat) (image : ppm_image) (i : Nat) : Int :=
  ((i * step_x * image.y + image.x : Nat) : Int) - 1

/-- The offset line 119 loads for the grid cell `(p, j)`. -/
def row_offset (step_y : Nat) (image : ppm_image) (j : Nat) : Int :=
  ((image.x : Int) - 1) * image.y + ((j * step_y : Nat) : Int)

/-- The value the stores of `sample_grid` give the cell `(a, b)` of the grid,
for `a ≤ p` and `b ≤ q`. -/
def sampled (step_x step_y : Nat) (image : ppm_image) (a b : Nat) : Fin 256 :=
  if a = image.x / step_x then
    if b = image.y / step_y then 0 else dark (image.data (row_offset step_y image b))
  else
    if b = image.y / step_y then dark (image.data (column_offset step_x image a))
    else dark (image.data (interior_offset step_x step_y image a b))

/-- The configuration code line 151 computes for the cell `(i, j)`. -/
def config (grid : Grid) (i j : Nat) : Nat :=
  (8 * (grid i j).val + 4 * (grid i (j + 1)).val
    + 2 * (grid (i + 1) (j + 1)).val + 1 * (grid (i + 1) j).val) % 256


/-- The stores of `rescale_image` for the pixel `(i, j)` (lines 194-200). -/
def rescale_pixel {F : Type} (rs : resampler F) (image : ppm_image) (i j : Nat)
    (new_image : ppm_image) : ppm_image :=
  let u := rs.div (rs.of_int i) (rs.of_int (new_image.x - 1))
  let v := rs.div (rs.of_int j) (rs.of_int (new_image.y - 1))
  let sample := rs.sample_bicubic image u v
  let new_image := { new_image with
    data := set_red new_image.data ((i * new_image.y + j : Nat) : Int) sample.1 }
  let new_image := { new_image with
    data := set_green new_image.data ((i * new_image.y + j : Nat) : Int) sample.2.1 }
  let new_image := { new_image with
    data := set_blue new_image.data ((i * new_image.y + j : Nat) : Int) sample.2.2 }
  new_image

/-- The inner loop of `rescale_image` for the row `i` (lines 193-201). -/
def rescale_row {F : Type} (rs : resampler F) (image : ppm_image) (i : Nat)
    (new_image : ppm_image) : ppm_image :=
  for_loop 0 new_image.y (fun j new_image => rescale_pixel rs image i j new_image) new_image

/-- The inner loop of `march` for the grid row `i` (lines 150-153), `q` columns. -/
def march_row (step_x step_y : Nat) (contour_map : Nat → ppm_image) (grid : Grid) (q i : Nat)
    (image : ppm_image) : ppm_image :=
  for_loop 0 q (fun j image =>
    update_image image (contour_map (config grid i j)) (i * step_x) (j * step_y)) image

/-- The test of line 180: the source raster is within the working resolution. -/
def within_resolution (image : ppm_image) : Prop :=
  image.x ≤ RESCALE_X ∧ image.y ≤ RESCALE_Y

instance (image : ppm_image) : Decidable (within_resolution image) := by
  unfold within_resolution
  infer_instance

/-- The raster the Sample and Stamp stages work on, as one loop over all rows:
the source raster when it is within the working resolution, else the buffer of
`main` filled row by row by the resampler. -/
def working_raster {F : Type} (rs : resampler F) (image : ppm_image)
    (buffer : Int → ppm_pixel) : ppm_image :=
  if within_resolution image then image
  else for_loop 0 RESCALE_X (rescale_row rs image)
    { x := RESCALE_X, y := RESCALE_Y, data := buffer }

/-- The grid of the run, as computed by a single task. -/
def reference_grid {F : Type} (rs : resampler F) (image : ppm_image)
    (buffer : Int → ppm_pixel) (grid : Grid) : Grid :=
  sample_stage STEP STEP 1 (working_raster rs image buffer) grid

/-- The output raster of the run, as one loop over all grid rows. -/
def reference_output {F : Type} (rs : resampler F) (contour_map : Nat → ppm_image)
    (image : ppm_image) (buffer : Int → ppm_pixel) (grid : Grid) : ppm_image :=
  for_loop 0 ((working_raster rs image buffer).x / STEP)
    (march_row STEP STEP contour_map (reference_grid rs image buffer grid)
      ((working_raster rs image buffer).y / STEP))
    (working_raster rs image buffer)

/-! ## Accesses of the Stamp stage -/

/-- The offsets of `image->data` that `update_image(image, contour, x, y)` stores
to, in program order (lines 64-68; the three channels of a pixel count once). -/
def update_image_writes (image contour : ppm_image) (x y : Nat) : List Int :=
  for_loop 0 contour.x (fun i writes =>
    for_loop 0 contour.y (fun j writes =>
      writes ++ [(((x + i) * image.y + y + j : Nat) : Int)]) writes) []

/-- The offsets of `image->data` that `march(data)` stores to through
`update_image`, in program order. -/
def march_writes (data : thread_data) (contour_map : Nat → ppm_image) (grid : Grid)
    (image : ppm_image) : List Int :=
  let step_x := data.step_x
  let step_y := data.step_y
  let p := image.x / step_x
  let q := image.y / step_y
  let start_i := start_i data.thread_id p data.P
  let end_i := end_i data.thread_id p data.P
  for_loop start_i end_i (fun i writes =>
    for_loop 0 q (fun j writes =>
      let k := (8 * (grid i j).val + 4 * (grid i (j + 1)).val
        + 2 * (grid (i + 1) (j + 1)).val + 1 * (grid (i + 1) j).val) % 256
      writes ++ update_image_writes image (contour_map k) (i * step_x) (j * step_y)) writes) []

/-- The cells `(row, column)` of the grid that `march(data)` loads at line 151,
in program order. -/
def march_grid_reads (data : thread_data) (image : ppm_image) : List (Nat × Nat) :=
  let step_x := data.step_x
  let step_y := data.step_y
  let p := image.x / step_x
  let q := image.y / step_y
  let start_i := start_i data.thread_id p data.P
  let end_i := end_i data.thread_id p data.P
  for_loop start_i end_i (fun i reads =>
    for_loop 0 q (fun j reads =>
      reads ++ [(i, j), (i, j + 1), (i + 1, j + 1), (i + 1, j)]) reads) []

/-- The offsets of the pixels in the rows `[start_t * s, end_t * s)` and the
columns `[0, q * s)` of the raster, for the grid rows `[start_t, end_t)` of task
`t`. -/
def task_region (s P t : Nat) (image : ppm_image) (n : Int) : Prop :=
  ∃ r c : Nat, start_i t (image.x / s) P * s ≤ r ∧ r < end_i t (image.x / s) P * s ∧
    c < image.y / s * s ∧ n = ((r * image.y + c : Nat) : Int)

/-! ## Concrete inputs -/

def white : ppm_pixel := ⟨255, 255, 255⟩

def black : ppm_pixel := ⟨0, 0, 0⟩

/-- A raster with `x = 8` and `y = 16` that is white except for the pixel at
offset `7`. -/
def tall_image : ppm_image := ⟨8, 16, fun n => if n = 7 then black else white⟩

/-- A white raster with `x = 16` and `y = 1`. -/
def thin_image : ppm_image := ⟨16, 1, fun _ => white⟩

/-- A raster with `x = 16` and `y = 16` whose pixels are black at the even
offsets and white at the odd ones. -/
def striped_image : ppm_image := ⟨16, 16, fun n => if n % 2 = 0 then black else white⟩

/-- A grid whose cells all hold `7`. -/
def stale_grid : Grid := fun _ _ => 7

/-- Sixteen stencils of `2 x 2` pixels; stencil `k` has the red value `k` in its
four pixels and the offset of the pixel as green value. -/
def small_contour_map : Nat → ppm_image :=
  fun k => ⟨2, 2, fun n => ⟨Fin.ofNat k, Fin.ofNat n.toNat, 0⟩⟩

/-- A grid of zeros and ones: `1` where the sum of the indices is even. -/
def checker_grid : Grid := fun i j => if (i + j) % 2 = 0 then 1 else 0

/-- A white raster with `x = 4` and `y = 6`. -/
def small_image : ppm_image := ⟨4, 6, fun _ => white⟩

/-- Sixteen white stencils of `8 x 8` pixels. -/
def white_contour_map : Nat → ppm_image := fun _ => ⟨8, 8, fun _ => white⟩

/-- A resampler over the natural numbers that returns a grey pixel. -/
def grey_resampler : resampler Nat := ⟨fun n => n, fun a b => a / b, fun _ _ _ => (128, 128, 128)⟩

/-- A white raster with `x = 4096` and `y = 8`. -/
def wide_image : ppm_image := ⟨4096, 8, fun _ => white⟩

/-- A stencil with `x = 2` and `y = 3` whose pixel at offset `n` has the red
value `n`. -/
def oblong_contour : ppm_image := ⟨2, 3, fun n => ⟨Fin.ofNat n.toNat, 0, 0⟩⟩

/-- A white raster with `x = 2` and `y = 3`. -/
def oblong_image : ppm_image := ⟨2, 3, fun _ => white⟩

/-- A white raster with `x = 72` and `y = 8` (576 pixels); the memory after it is
white as well. -/
def long_image : ppm_image := ⟨72, 8, fun _ => white⟩

/-- The raster `long_image` with other memory after it: the same 576 white
pixels, and a black pixel at the offset `583`, which is outside the raster. -/
def long_image_beyond : ppm_image := ⟨72, 8, fun n => if n = 583 then black else white⟩

theorem foldl_invariant {σ : Type} (Q : σ → Prop) (body : Nat → σ → σ) (l : List Nat)
    (hQ : ∀ i ∈ l, ∀ s, Q s → Q (body i s)) (s : σ) (hs : Q s) :
    Q (l.foldl (fun acc i => body i acc) s) := by
  induction l generalizing s with
  | nil => simpa using hs
  | cons a l ih =>
    simp only [List.foldl_cons]
    apply ih
    · intro i hi s hs
      exact hQ i (List.mem_cons_of_mem a hi) s hs
    · exact hQ a (List.mem_cons_self a l) s hs

theorem foldl_establishes {σ : Type} (I Q : σ → Prop) (body : Nat → σ → σ) (l : List Nat)
    (hI : ∀ i ∈ l, ∀ s, I s → I (body i s))
    (hQ : ∀ i ∈ l, ∀ s, I s → Q s → Q (body i s))
    (i0 : Nat) (hi0 : i0 ∈ l) (hset : ∀ s, I s → Q (body i0 s))
    (s : σ) (hs : I s) :
    Q (l.foldl (fun acc i => body i acc) s) := by
  induction l generalizing s with
  | nil => cases hi0
  | cons a l ih =>
    simp only [List.foldl_cons]
    rcases List.mem_cons.mp hi0 with h | h
    · subst h
      have hboth : I (body i0 s) ∧ Q (body i0 s) :=
        ⟨hI i0 (List.mem_cons_self i0 l) s hs, hset s hs⟩
      have := foldl_invariant (fun s => I s ∧ Q s) body l
        (fun i hi s hs => ⟨hI i (List.mem_cons_of_mem i0 hi) s hs.1,
          hQ i (List.mem_cons_of_mem i0 hi) s hs.1 hs.2⟩) (body i0 s) hboth
      exact this.2
    · apply ih
      · intro i hi s hs
        exact hI i (List.mem_cons_of_mem a hi) s hs
      · intro i hi s hs hq
        exact hQ i (List.mem_cons_of_mem a hi) s hs hq
      · exact h
      · exact hI a (List.mem_cons_self a l) s hs

theorem mem_range_iff (lo hi i : Nat) : i ∈ List.range' lo (hi - lo) ↔ lo ≤ i ∧ i < hi := by
  rw [List.mem_range'_1]
  omega

/-- A property that every iteration preserves holds after the loop. -/
theorem for_loop_invariant {σ : Type} (Q : σ → Prop) (lo hi : Nat) (body : Nat → σ → σ)
    (hQ : ∀ i, lo ≤ i → i < hi → ∀ s, Q s → Q (body i s)) (s : σ) (hs : Q s) :
    Q (for_loop lo hi body s) := by
  unfold for_loop
  apply foldl_invariant Q body _ _ s hs
  intro i hi s hs
  rw [mem_range_iff] at hi
  exact hQ i hi.1 hi.2 s hs

/-- A property that one iteration establishes and every iteration preserves
holds after the loop. -/
theorem for_loop_establishes {σ : Type} (I Q : σ → Prop) (lo hi : Nat) (body : Nat → σ → σ)
    (hI : ∀ i, lo ≤ i → i < hi → ∀ s, I s → I (body i s))
    (hQ : ∀ i, lo ≤ i → i < hi → ∀ s, I s → Q s → Q (body i s))
    (i0 : Nat) (hlo : lo ≤ i0) (hhi : i0 < hi) (hset : ∀ s, I s → Q (body i0 s))
    (s : σ) (hs : I s) :
    Q (for_loop lo hi body s) := by
  unfold for_loop
  apply foldl_establishes I Q body _ _ _ i0 ((mem_range_iff lo hi i0).mpr ⟨hlo, hhi⟩) hset s hs
  · intro i hi s hs
    rw [mem_range_iff] at hi
    exact hI i hi.1 hi.2 s hs
  · intro i hi s hs hq
    rw [mem_range_iff] at hi
    exact hQ i hi.1 hi.2 s hs hq

/-- Two consecutive loops with the same body are one loop. -/
theorem for_loop_append {σ : Type} (a b c : Nat) (hab : a ≤ b) (hbc : b ≤ c)
    (body : Nat → σ → σ) (s : σ) :
    for_loop b c body (for_loop a b body s) = for_loop a c body s := by
  unfold for_loop
  rw [← List.foldl_append]
  congr 1
  have h1 : c - a = (c - b) + (b - a) := by omega
  have h2 : a + (b - a) = b := by omega
  rw [h1, ← List.range'_append_1, h2]

theorem for_loop_empty {σ : Type} (lo hi : Nat) (h : hi ≤ lo) (body : Nat → σ → σ) (s : σ) :
    for_loop lo hi body s = s := by
  unfold for_loop
  have : hi - lo = 0 := by omega
  rw [this]
  rfl

/-- Loops whose bodies agree on the range of the loop are equal. -/
theorem for_loop_congr {σ : Type} (lo hi : Nat) (f g : Nat → σ → σ)
    (h : ∀ i, lo ≤ i → i < hi → ∀ s, f i s = g i s) (s : σ) :
    for_loop lo hi f s = for_loop lo hi g s := by
  unfold for_loop
  have : ∀ (l : List Nat), (∀ i ∈ l, ∀ s, f i s = g i s) → ∀ s,
      l.foldl (fun acc i => f i acc) s = l.foldl (fun acc i => g i acc) s := by
    intro l
    induction l with
    | nil => intro _ s; rfl
    | cons a l ih =>
      intro hl s
      simp only [List.foldl_cons]
      rw [hl a (List.mem_cons_self a l) s]
      exact ih (fun i hi s => hl i (List.mem_cons_of_mem a hi) s) _
  apply this
  intro i hi s
  rw [mem_range_iff] at hi
  exact h i hi.1 hi.2 s

/-! ## The partition of the rows among the tasks -/

theorem min_eq_left_of_le (a b : Nat) (h : a ≤ b) : min a b = a := by
  unfold min
  split <;> omega

theorem min_le_right (a b : Nat) : min a b ≤ b := by
  unfold min
  split <;> omega

theorem start_i_zero (N P : Nat) : start_i 0 N P = 0 := by
  simp [start_i]

theorem start_i_mono (N P : Nat) {t u : Nat} (h : t ≤ u) : start_i t N P ≤ start_i u N P := by
  unfold start_i
  exact Nat.div_le_div_right (Nat.mul_le_mul_right N h)

theorem start_i_le (N P t : Nat) (hP : 0 < P) (ht : t ≤ P) : start_i t N P ≤ N := by
  unfold start_i
  calc t * N / P ≤ P * N / P := Nat.div_le_div_right (Nat.mul_le_mul_right N ht)
    _ = N := Nat.mul_div_cancel_left N hP

theorem start_i_last (N P : Nat) (hP : 0 < P) : start_i P N P = N := by
  unfold start_i
  exact Nat.mul_div_cancel_left N hP

/-- For a task id below `P` the `min` of `end_i` is not needed: the range of
task `t` ends where the range of task `t + 1` starts. -/
theorem end_i_eq_start_i (N P t : Nat) (hP : 0 < P) (ht : t < P) :
    end_i t N P = start_i (t + 1) N P := by
  unfold end_i
  exact min_eq_left_of_le _ _ (start_i_le N P (t + 1) hP ht)

theorem end_i_le (N P t : Nat) : end_i t N P ≤ N := min_le_right _ _

theorem start_i_le_end_i (N P t : Nat) (hP : 0 < P) (ht : t < P) :
    start_i t N P ≤ end_i t N P := by
  rw [end_i_eq_start_i N P t hP ht]
  exact start_i_mono N P (Nat.le_succ t)

/-- Every index below the start of task `k` is in the range of a task before `k`. -/
theorem exists_task_below (N P n : Nat) (k : Nat) (hn : n < start_i k N P) :
    ∃ t, t < k ∧ start_i t N P ≤ n ∧ n < start_i (t + 1) N P := by
  induction k with
  | zero => simp [start_i_zero] at hn
  | succ k ih =>
    by_cases h : n < start_i k N P
    · obtain ⟨t, ht, h1, h2⟩ := ih h
      exact ⟨t, Nat.lt_succ_of_lt ht, h1, h2⟩
    · exact ⟨k, Nat.lt_succ_self k, Nat.le_of_not_lt h, hn⟩

/-- Every index below `N` is in the range of some task. -/
theorem exists_task (N P n : Nat) (hP : 0 < P) (hn : n < N) :
    ∃ t, t < P ∧ start_i t N P ≤ n ∧ n < end_i t N P := by
  have h : n < start_i P N P := by rw [start_i_last N P hP]; exact hn
  obtain ⟨t, ht, h1, h2⟩ := exists_task_below N P n P h
  exact ⟨t, ht, h1, by rw [end_i_eq_start_i N P t hP ht]; exact h2⟩

/-- The ranges of two tasks that contain the same index are the same task. -/
theorem task_unique (N P n t u : Nat) (hP : 0 < P) (ht : t < P) (hu : u < P)
    (ht1 : start_i t N P ≤ n) (ht2 : n < end_i t N P)
    (hu1 : start_i u N P ≤ n) (hu2 : n < end_i u N P) : t = u := by
  rw [end_i_eq_start_i N P t hP ht] at ht2
  rw [end_i_eq_start_i N P u hP hu] at hu2
  rcases Nat.lt_trichotomy t u with h | h | h
  · have : start_i (t + 1) N P ≤ start_i u N P := start_i_mono N P h
    omega
  · exact h
  · have : start_i (u + 1) N P ≤ start_i t N P := start_i_mono N P h
    omega

/-- C5: for `P ≥ 1` the task ranges `[start_i t N P, end_i t N P)`, `t < P`,
partition `[0, N)`: every index below `N` is in the range of exactly one task
id, and a range contains no index `≥ N`. -/
theorem task_ranges_partition (N P : Nat) (hP : 1 ≤ P) :
    (∀ n, n < N → ∃! t, t < P ∧ start_i t N P ≤ n ∧ n < end_i t N P) ∧
    (∀ t n, t < P → start_i t N P ≤ n → n < end_i t N P → n < N) := by
  constructor
  · intro n hn
    obtain ⟨t, ht, h1, h2⟩ := exists_task N P n hP hn
    refine ⟨t, ⟨ht, h1, h2⟩, ?_⟩
    rintro u ⟨hu, hu1, hu2⟩
    exact task_unique N P n u t hP hu ht hu1 hu2 h1 h2
  · intro t n _ _ h2
    exact Nat.lt_of_lt_of_le h2 (end_i_le N P t)

theorem task_ranges_partition_witness :
    (∀ n, n < 10 → ∃! t, t < 4 ∧ start_i t 10 4 ≤ n ∧ n < end_i t 10 4) ∧
    (∀ t n, t < 4 → start_i t 10 4 ≤ n → n < end_i t 10 4 → n < 10) :=
  task_ranges_partition 10 4 (by decide)


/-! ## Observing a loop at one place -/

/-- An observation that no iteration changes is the same after the loop. -/
theorem for_loop_obs_frame {σ α : Type} (obs : σ → α) (I : σ → Prop) (lo hi : Nat)
    (body : Nat → σ → σ)
    (hI : ∀ i, lo ≤ i → i < hi → ∀ s, I s → I (body i s))
    (hframe : ∀ i, lo ≤ i → i < hi → ∀ s, I s → obs (body i s) = obs s)
    (s : σ) (hs : I s) :
    obs (for_loop lo hi body s) = obs s := by
  have := for_loop_invariant (fun s' => I s' ∧ obs s' = obs s) lo hi body
    (fun i h1 h2 s' hs' => ⟨hI i h1 h2 s' hs'.1, by rw [hframe i h1 h2 s' hs'.1]; exact hs'.2⟩)
    s ⟨hs, rfl⟩
  exact this.2

/-- An observation that iteration `i0` sets to `v` and no other iteration changes
is `v` after the loop. -/
theorem for_loop_obs_set {σ α : Type} (obs : σ → α) (I : σ → Prop) (lo hi : Nat)
    (body : Nat → σ → σ) (v : α)
    (hI : ∀ i, lo ≤ i → i < hi → ∀ s, I s → I (body i s))
    (i0 : Nat) (hlo : lo ≤ i0) (hhi : i0 < hi)
    (hset : ∀ s, I s → obs (body i0 s) = v)
    (hframe : ∀ i, lo ≤ i → i < hi → i ≠ i0 → ∀ s, I s → obs (body i s) = obs s)
    (s : σ) (hs : I s) :
    obs (for_loop lo hi body s) = v := by
  apply for_loop_establishes I (fun s' => obs s' = v) lo hi body hI _ i0 hlo hhi hset s hs
  intro i h1 h2 s' hs' hq
  by_cases h : i = i0
  · subst h
    exact hset s' hs'
  · rw [hframe i h1 h2 h s' hs']
    exact hq

/-! ## The grid after `sample_grid` -/

@[simp] theorem grid_set_apply (g : Grid) (i j : Nat) (v : Fin 256) (a b : Nat) :
    grid_set g i j v a b = if a = i ∧ b = j then v else g a b := rfl

theorem ite_grid_set (c : Prop) [Decidable c] (g : Grid) (i j : Nat) (v w : Fin 256) :
    (if c then grid_set g i j v else grid_set g i j w) = grid_set g i j (if c then v else w) := by
  split <;> rfl

/-- The comparison `curr_color > sigma` on the `unsigned char` average is the
sampling rule `dark`: the average of three bytes fits a byte. -/
theorem threshold_eq_dark (px : ppm_pixel) :
    (if (px.red.val + px.green.val + px.blue.val) / 3 % 256 > SIGMA then (0 : Fin 256) else 1)
      = dark px := by
  have h1 := px.red.isLt
  have h2 := px.green.isLt
  have h3 := px.blue.isLt
  have h : (px.red.val + px.green.val + px.blue.val) / 3 % 256
      = (px.red.val + px.green.val + px.blue.val) / 3 := by
    apply Nat.mod_eq_of_lt
    omega
  rw [h]
  unfold dark average SIGMA
  by_cases hc : (px.red.val + px.green.val + px.blue.val) / 3 ≤ 200
  · rw [if_pos hc, if_neg (by omega)]
  · rw [if_neg hc, if_pos (by omega)]

/-- A loop that stores into one row of the grid. -/
theorem for_loop_row_apply (q i : Nat) (v : Nat → Fin 256) (g : Grid) (a b : Nat) :
    for_loop 0 q (fun j g => grid_set g i j (v j)) g a b
      = if a = i ∧ b < q then v b else g a b := by
  by_cases h : a = i ∧ b < q
  · rw [if_pos h]
    apply for_loop_obs_set (fun g : Grid => g a b) (fun _ => True) 0 q _ (v b)
      (fun _ _ _ _ _ => trivial) b (Nat.zero_le b) h.2
    · intro s _
      simp [h.1]
    · intro j _ _ hne s _
      have : ¬ (a = i ∧ b = j) := fun hh => hne hh.2.symm
      simp [this]
    · trivial
  · rw [if_neg h]
    apply for_loop_obs_frame (fun g : Grid => g a b) (fun _ => True) 0 q _
      (fun _ _ _ _ _ => trivial)
    · intro j _ hj s _
      have : ¬ (a = i ∧ b = j) := fun hh => h ⟨hh.1, hh.2 ▸ hj⟩
      simp [this]
    · trivial

/-- A loop that stores into one column of the grid. -/
theorem for_loop_column_apply (lo hi q : Nat) (w : Nat → Fin 256) (g : Grid) (a b : Nat) :
    for_loop lo hi (fun i g => grid_set g i q (w i)) g a b
      = if (lo ≤ a ∧ a < hi) ∧ b = q then w a else g a b := by
  by_cases h : (lo ≤ a ∧ a < hi) ∧ b = q
  · rw [if_pos h]
    apply for_loop_obs_set (fun g : Grid => g a b) (fun _ => True) lo hi _ (w a)
      (fun _ _ _ _ _ => trivial) a h.1.1 h.1.2
    · intro s _
      simp [h.2]
    · intro i _ _ hne s _
      have : ¬ (a = i ∧ b = q) := fun hh => hne hh.1.symm
      simp [this]
    · trivial
  · rw [if_neg h]
    apply for_loop_obs_frame (fun g : Grid => g a b) (fun _ => True) lo hi _
      (fun _ _ _ _ _ => trivial)
    · intro i h1 h2 s _
      have : ¬ (a = i ∧ b = q) := fun hh => h ⟨hh.1 ▸ ⟨h1, h2⟩, hh.2⟩
      simp [this]
    · trivial

/-- The nested loops that store into the rows `lo..hi-1`, columns `0..q-1`. -/
theorem for_loop_block_apply (lo hi q : Nat) (v : Nat → Nat → Fin 256) (g : Grid) (a b : Nat) :
    for_loop lo hi (fun i g => for_loop 0 q (fun j g => grid_set g i j (v i j)) g) g a b
      = if (lo ≤ a ∧ a < hi) ∧ b < q then v a b else g a b := by
  by_cases h : (lo ≤ a ∧ a < hi) ∧ b < q
  · rw [if_pos h]
    apply for_loop_obs_set (fun g : Grid => g a b) (fun _ => True) lo hi _ (v a b)
      (fun _ _ _ _ _ => trivial) a h.1.1 h.1.2
    · intro s _
      show for_loop 0 q (fun j g => grid_set g a j (v a j)) s a b = v a b
      rw [for_loop_row_apply, if_pos ⟨rfl, h.2⟩]
    · intro i _ _ hne s _
      show for_loop 0 q (fun j g => grid_set g i j (v i j)) s a b = s a b
      rw [for_loop_row_apply, if_neg (fun (hh : a = i ∧ b < q) => hne hh.1.symm)]
    · trivial
  · rw [if_neg h]
    apply for_loop_obs_frame (fun g : Grid => g a b) (fun _ => True) lo hi _
      (fun _ _ _ _ _ => trivial)
    · intro i h1 h2 s _
      show for_loop 0 q (fun j g => grid_set g i j (v i j)) s a b = s a b
      rw [for_loop_row_apply, if_neg (fun (hh : a = i ∧ b < q) => h ⟨hh.1 ▸ ⟨h1, h2⟩, hh.2⟩)]
    · trivial

/-- The grid one call of `sample_grid` leaves, cell by cell: the four groups of
stores of the function, the last one first. -/
theorem sample_grid_apply (data : thread_data) (image : ppm_image) (grid : Grid) (a b : Nat) :
    sample_grid data image grid a b =
      if a = image.x / data.step_x ∧ b < image.y / data.step_y then
        dark (image.data (row_offset data.step_y image b))
      else if (start_i data.thread_id (image.x / data.step_x) data.P ≤ a
          ∧ a < end_i data.thread_id (image.x / data.step_x) data.P)
          ∧ b = image.y / data.step_y then
        dark (image.data (column_offset data.step_x image a))
      else if a = image.x / data.step_x ∧ b = image.y / data.step_y then 0
      else if (start_i data.thread_id (image.x / data.step_x) data.P ≤ a
          ∧ a < end_i data.thread_id (image.x / data.step_x) data.P)
          ∧ b < image.y / data.step_y then
        dark (image.data (interior_offset data.step_x data.step_y image a b))
      else grid a b := by
  simp only [sample_grid, ite_grid_set, threshold_eq_dark]
  rw [for_loop_row_apply (image.y / data.step_y) (image.x / data.step_x)
    (fun j => dark (image.data (((image.x : Int) - 1) * image.y + ((j * data.step_y : Nat) : Int))))]
  rw [for_loop_column_apply _ _ (image.y / data.step_y)
    (fun i => dark (image.data (((i * data.step_x * image.y + image.x : Nat) : Int) - 1)))]
  rw [grid_set_apply]
  rw [for_loop_block_apply _ _ (image.y / data.step_y)
    (fun i j => dark (image.data ((i * data.step_x * image.y + j * data.step_y : Nat) : Int)))]
  rfl


/-! ## Offsets of a row-major raster -/

/-- A row-major offset determines its row and its column. -/
theorem offset_inj (Y r c r' c' : Nat) (hc : c < Y) (hc' : c' < Y)
    (h : r * Y + c = r' * Y + c') : r = r' ∧ c = c' := by
  have hr : r = r' := by
    rcases Nat.lt_trichotomy r r' with hlt | heq | hgt
    · have h1 : (r + 1) * Y ≤ r' * Y := Nat.mul_le_mul_right Y hlt
      rw [Nat.add_mul, Nat.one_mul] at h1
      omega
    · exact heq
    · have h1 : (r' + 1) * Y ≤ r * Y := Nat.mul_le_mul_right Y hgt
      rw [Nat.add_mul, Nat.one_mul] at h1
      omega
  subst hr
  exact ⟨rfl, by omega⟩

/-- The cell `j < Y / s` lies inside the row: `j * s + b < Y` for `b < s`. -/
theorem cell_lt (Y s j b : Nat) (hj : j < Y / s) (hb : b < s) : j * s + b < Y := by
  have hs : 0 < s := Nat.lt_of_le_of_lt (Nat.zero_le b) hb
  have h1 : (j + 1) * s ≤ Y := (Nat.le_div_iff_mul_le hs).mp hj
  rw [Nat.add_mul, Nat.one_mul] at h1
  omega

/-- The pixels of two different cells are at different offsets. -/
theorem cell_offset_inj (Y s i j a b i' j' a' b' : Nat)
    (hj : j < Y / s) (hj' : j' < Y / s) (ha : a < s) (hb : b < s) (ha' : a' < s) (hb' : b' < s)
    (h : (i * s + a) * Y + (j * s + b) = (i' * s + a') * Y + (j' * s + b')) :
    i = i' ∧ j = j' ∧ a = a' ∧ b = b' := by
  obtain ⟨h1, h2⟩ := offset_inj Y _ _ _ _ (cell_lt Y s j b hj hb) (cell_lt Y s j' b' hj' hb') h
  obtain ⟨h3, h4⟩ := offset_inj s _ _ _ _ ha ha' h1
  obtain ⟨h5, h6⟩ := offset_inj s _ _ _ _ hb hb' h2
  exact ⟨h3, h5, h4, h6⟩

/-! ## The raster after `update_image` -/

/-- Storing the three channels of a pixel stores the pixel. -/
theorem three_stores (d : Int → ppm_pixel) (k : Int) (px : ppm_pixel) :
    set_blue (set_green (set_red d k px.red) k px.green) k px.blue
      = fun n => if n = k then px else d n := by
  funext n
  unfold set_red set_green set_blue
  by_cases h : n = k
  · simp [h]
  · simp [h]

/-- The three stores of lines 66-68 replace one pixel. -/
theorem copy_pixel_eq (contour : ppm_image) (x y i j : Nat) (image : ppm_image) :
    copy_pixel contour x y i j image =
      { image with data := fun n =>
          if n = (((x + i) * image.y + y + j : Nat) : Int)
          then contour.data ((contour.x * i + j : Nat) : Int) else image.data n } := by
  unfold copy_pixel
  simp only
  rw [three_stores]

theorem update_image_eq (image contour : ppm_image) (x y : Nat) :
    update_image image contour x y =
      for_loop 0 contour.x (fun i image =>
        for_loop 0 contour.y (fun j image => copy_pixel contour x y i j image) image) image :=
  rfl

theorem copy_pixel_x (contour : ppm_image) (x y i j : Nat) (image : ppm_image) :
    (copy_pixel contour x y i j image).x = image.x := by
  rw [copy_pixel_eq]

theorem copy_pixel_y (contour : ppm_image) (x y i j : Nat) (image : ppm_image) :
    (copy_pixel contour x y i j image).y = image.y := by
  rw [copy_pixel_eq]

/-- `update_image` leaves the dimensions of the image alone. -/
theorem update_image_dims (image contour : ppm_image) (x y : Nat) :
    (update_image image contour x y).x = image.x ∧
    (update_image image contour x y).y = image.y := by
  rw [update_image_eq]
  apply for_loop_invariant (fun im : ppm_image => im.x = image.x ∧ im.y = image.y)
  · intro i _ _ s hs
    apply for_loop_invariant (fun im : ppm_image => im.x = image.x ∧ im.y = image.y)
    · intro j _ _ s hs
      rw [copy_pixel_x, copy_pixel_y]
      exact hs
    · exact hs
  · exact ⟨rfl, rfl⟩

/-- `update_image` changes no pixel outside the rectangle it writes. -/
theorem update_image_frame (image contour : ppm_image) (x y : Nat) (n : Int)
    (hn : ∀ i j, i < contour.x → j < contour.y →
      n ≠ (((x + i) * image.y + y + j : Nat) : Int)) :
    (update_image image contour x y).data n = image.data n := by
  rw [update_image_eq]
  apply for_loop_obs_frame (fun im : ppm_image => im.data n) (fun im => im.y = image.y)
  · intro i _ _ s hs
    apply for_loop_invariant (fun im : ppm_image => im.y = image.y)
    · intro j _ _ s hs
      rw [copy_pixel_y]
      exact hs
    · exact hs
  · intro i _ hi s hs
    apply for_loop_obs_frame (fun im : ppm_image => im.data n) (fun im => im.y = image.y)
    · intro j _ _ s hs
      rw [copy_pixel_y]
      exact hs
    · intro j _ hj s hs
      rw [copy_pixel_eq]
      simp only
      rw [if_neg]
      rw [hs]
      exact hn i j hi hj
    · exact hs
  · rfl

/-- `update_image` copies contour pixel `contour.x * i + j` to the offset
`(x + i) * image.y + y + j`, when the rectangle fits the row of the image. -/
theorem update_image_copies (image contour : ppm_image) (x y i j : Nat)
    (hfit : y + contour.y ≤ image.y) (hi : i < contour.x) (hj : j < contour.y) :
    (update_image image contour x y).data (((x + i) * image.y + y + j : Nat) : Int)
      = contour.data ((contour.x * i + j : Nat) : Int) := by
  rw [update_image_eq]
  apply for_loop_obs_set
    (fun im : ppm_image => im.data (((x + i) * image.y + y + j : Nat) : Int))
    (fun im => im.y = image.y) 0 contour.x _ _ _ i (Nat.zero_le i) hi
  · intro s hs
    apply for_loop_obs_set
      (fun im : ppm_image => im.data (((x + i) * image.y + y + j : Nat) : Int))
      (fun im => im.y = image.y) 0 contour.y _ _ _ j (Nat.zero_le j) hj
    · intro s hs
      rw [copy_pixel_eq]
      simp only
      rw [if_pos]
      rw [hs]
    · intro j' _ hj' hne s hs
      rw [copy_pixel_eq]
      simp only
      rw [if_neg]
      rw [hs]
      intro h
      have h' : (x + i) * image.y + (y + j) = (x + i) * image.y + (y + j') := by
        have := Int.ofNat_inj.mp h
        omega
      exact hne (by omega)
    · exact hs
    · intro j' _ _ s hs
      rw [copy_pixel_y]
      exact hs
  · intro i' _ hi' hne s hs
    apply for_loop_obs_frame
      (fun im : ppm_image => im.data (((x + i) * image.y + y + j : Nat) : Int))
      (fun im => im.y = image.y)
    · intro j' _ _ s hs
      rw [copy_pixel_y]
      exact hs
    · intro j' _ hj' s hs
      rw [copy_pixel_eq]
      simp only
      rw [if_neg]
      rw [hs]
      intro h
      have h' : (x + i) * image.y + (y + j) = (x + i') * image.y + (y + j') := by
        have := Int.ofNat_inj.mp h
        omega
      have := (offset_inj image.y _ _ _ _ (by omega) (by omega) h').1
      exact hne (by omega)
    · exact hs
  · rfl
  · intro i' _ _ s hs
    apply for_loop_invariant (fun im : ppm_image => im.y = image.y)
    · intro j' _ _ s hs
      rw [copy_pixel_y]
      exact hs
    · exact hs


/-! ## The grid after the Sample stage -/

/-- One call of `sample_grid` stores `sampled` into the cells of its own rows and
of the boundary row, and leaves every other cell alone. -/
theorem sample_grid_cell (t step_x step_y P : Nat) (image : ppm_image) (grid : Grid)
    (a b : Nat) :
    sample_grid ⟨t, step_x, step_y, P⟩ image grid a b =
      if (a = image.x / step_x ∨ (start_i t (image.x / step_x) P ≤ a
          ∧ a < end_i t (image.x / step_x) P)) ∧ b ≤ image.y / step_y
      then sampled step_x step_y image a b else grid a b := by
  rw [sample_grid_apply]
  simp only
  have hend := end_i_le (image.x / step_x) P t
  unfold sampled
  generalize image.x / step_x = p at *
  generalize image.y / step_y = q at *
  generalize start_i t p P = lo at *
  generalize end_i t p P = hi at *
  split_ifs <;> first | rfl | (exfalso; omega)

/-- The grid the Sample stage leaves: `sampled` in the cells `(a, b)` with
`a ≤ p` and `b ≤ q`, the initial grid elsewhere. -/
theorem sample_stage_apply (step_x step_y P : Nat) (hP : 0 < P) (image : ppm_image)
    (grid : Grid) (a b : Nat) :
    sample_stage step_x step_y P image grid a b =
      if a ≤ image.x / step_x ∧ b ≤ image.y / step_y
      then sampled step_x step_y image a b else grid a b := by
  unfold sample_stage run_tasks
  by_cases h : a ≤ image.x / step_x ∧ b ≤ image.y / step_y
  · rw [if_pos h]
    have ht : ∃ t, t < P ∧ (a = image.x / step_x ∨ (start_i t (image.x / step_x) P ≤ a
        ∧ a < end_i t (image.x / step_x) P)) := by
      by_cases ha : a = image.x / step_x
      · exact ⟨0, hP, Or.inl ha⟩
      · obtain ⟨t, ht, h1, h2⟩ := exists_task (image.x / step_x) P a hP
          (Nat.lt_of_le_of_ne h.1 ha)
        exact ⟨t, ht, Or.inr ⟨h1, h2⟩⟩
    obtain ⟨t0, ht0, hin⟩ := ht
    apply for_loop_establishes (fun _ => True)
      (fun g : Grid => g a b = sampled step_x step_y image a b) 0 P _
      (fun _ _ _ _ _ => trivial) _ t0 (Nat.zero_le t0) ht0
    · intro s _
      show sample_grid ⟨t0, step_x, step_y, P⟩ image s a b = _
      rw [sample_grid_cell, if_pos ⟨hin, h.2⟩]
    · trivial
    · intro t _ _ s _ hq
      show sample_grid ⟨t, step_x, step_y, P⟩ image s a b = _
      rw [sample_grid_cell]
      split
      · rfl
      · exact hq
  · rw [if_neg h]
    apply for_loop_obs_frame (fun g : Grid => g a b) (fun _ => True) 0 P _
      (fun _ _ _ _ _ => trivial)
    · intro t _ _ s _
      show sample_grid ⟨t, step_x, step_y, P⟩ image s a b = s a b
      rw [sample_grid_cell, if_neg]
      rintro ⟨h1 | h1, h2⟩
      · exact h ⟨Nat.le_of_eq h1, h2⟩
      · exact h ⟨Nat.le_trans (Nat.le_of_lt h1.2) (end_i_le _ _ _), h2⟩
    · trivial

/-! ## Offsets the Sample stage loads -/

/-- The interior sample of a cell is a pixel of the raster. -/
theorem interior_offset_lt (step_x step_y : Nat) (image : ppm_image) (i j : Nat)
    (hi : i < image.x / step_x) (hj : j < image.y / step_y) :
    i * step_x * image.y + j * step_y < image.x * image.y := by
  have hx : 0 < step_x := by
    rcases Nat.eq_zero_or_pos step_x with h | h
    · rw [h, Nat.div_zero] at hi; exact absurd hi (Nat.not_lt_zero i)
    · exact h
  have hy : 0 < step_y := by
    rcases Nat.eq_zero_or_pos step_y with h | h
    · rw [h, Nat.div_zero] at hj; exact absurd hj (Nat.not_lt_zero j)
    · exact h
  have h1 : i * step_x + 0 < image.x := cell_lt image.x step_x i 0 hi hx
  have h2 : j * step_y + 0 < image.y := cell_lt image.y step_y j 0 hj hy
  have h3 : (i * step_x + 1) * image.y ≤ image.x * image.y :=
    Nat.mul_le_mul_right image.y (by omega)
  rw [Nat.add_mul, Nat.one_mul] at h3
  omega

/-- The boundary-row sample of a column is a pixel of the raster. -/
theorem row_offset_lt (step_y : Nat) (image : ppm_image) (j : Nat) (hx : 1 ≤ image.x)
    (hj : j < image.y / step_y) :
    0 ≤ row_offset step_y image j ∧ row_offset step_y image j < (image.x * image.y : Nat) := by
  have hy : 0 < step_y := by
    rcases Nat.eq_zero_or_pos step_y with h | h
    · rw [h, Nat.div_zero] at hj; exact absurd hj (Nat.not_lt_zero j)
    · exact h
  have h2 : j * step_y + 0 < image.y := cell_lt image.y step_y j 0 hj hy
  have h3 : row_offset step_y image j = (((image.x - 1) * image.y + j * step_y : Nat) : Int) := by
    unfold row_offset
    push_cast [Nat.cast_sub hx]
    ring
  rw [h3]
  constructor
  · exact Int.ofNat_nonneg _
  · have h4 : (image.x - 1 + 1) * image.y = image.x * image.y := by
      rw [Nat.sub_add_cancel hx]
    rw [Nat.add_mul, Nat.one_mul] at h4
    exact_mod_cast (by omega : (image.x - 1) * image.y + j * step_y < image.x * image.y)

/-- The boundary-column sample of a row of a square raster is the last pixel of
the row. -/
theorem column_offset_square (step_x : Nat) (image : ppm_image) (i : Nat)
    (hsq : image.x = image.y) (hi : i < image.x / step_x) :
    0 ≤ column_offset step_x image i ∧ column_offset step_x image i < (image.x * image.y : Nat) := by
  have hx : 0 < step_x := by
    rcases Nat.eq_zero_or_pos step_x with h | h
    · rw [h, Nat.div_zero] at hi; exact absurd hi (Nat.not_lt_zero i)
    · exact h
  have h1 : i * step_x + 0 < image.x := cell_lt image.x step_x i 0 hi hx
  have h3 : (i * step_x + 1) * image.y ≤ image.x * image.y :=
    Nat.mul_le_mul_right image.y (by omega)
  rw [Nat.add_mul, Nat.one_mul] at h3
  unfold column_offset
  constructor
  · have : (1 : Int) ≤ ((i * step_x * image.y + image.x : Nat) : Int) := by
      exact_mod_cast (by omega : 1 ≤ i * step_x * image.y + image.x)
    omega
  · have : ((i * step_x * image.y + image.x : Nat) : Int) ≤ ((image.x * image.y : Nat) : Int) := by
      exact_mod_cast (by omega : i * step_x * image.y + image.x ≤ image.x * image.y)
    omega

/-- The boundary-column cell `grid[i][q]`, `i < p`, after the Sample stage holds
the sample of the pixel at offset `i * step_x * Y + X - 1` (line 107). -/
theorem sample_stage_boundary_column (step_x step_y P : Nat) (hP : 0 < P) (image : ppm_image)
    (grid : Grid) (i : Nat) (hi : i < image.x / step_x) :
    sample_stage step_x step_y P image grid i (image.y / step_y) =
      dark (image.data (((i * step_x * image.y + image.x : Nat) : Int) - 1)) := by
  rw [sample_stage_apply step_x step_y P hP, if_pos ⟨Nat.le_of_lt hi, Nat.le_refl _⟩]
  unfold sampled
  rw [if_neg (Nat.ne_of_lt hi), if_pos rfl]
  rfl

/-! ## The Sample stage: the claims -/

/-- C2: after `sample_grid` has run for the task ids `0..P-1` (`P ≥ 1`, any
initial grid), every cell `(i, j)` with `i < p` and `j < q` holds `1` when the
average `(R + G + B) / 3` of the pixel at offset `i * step_x * Y + j * step_y`
is at most `200` and `0` otherwise; that pixel is a pixel of the raster; and an
average of exactly `200` gives `1`. -/
theorem sample_stage_interior (step_x step_y P : Nat) (image : ppm_image) (grid : Grid)
    (hP : 1 ≤ P) (i j : Nat) (hi : i < image.x / step_x) (hj : j < image.y / step_y) :
    i * step_x * image.y + j * step_y < image.x * image.y ∧
    sample_stage step_x step_y P image grid i j =
      (if average (image.data ((i * step_x * image.y + j * step_y : Nat) : Int)) ≤ 200
        then 1 else 0) ∧
    (average (image.data ((i * step_x * image.y + j * step_y : Nat) : Int)) = 200 →
      sample_stage step_x step_y P image grid i j = 1) := by
  have h : sample_stage step_x step_y P image grid i j =
      dark (image.data ((i * step_x * image.y + j * step_y : Nat) : Int)) := by
    rw [sample_stage_apply step_x step_y P hP, if_pos ⟨Nat.le_of_lt hi, Nat.le_of_lt hj⟩]
    unfold sampled
    rw [if_neg (Nat.ne_of_lt hi), if_neg (Nat.ne_of_lt hj)]
    rfl
  refine ⟨interior_offset_lt step_x step_y image i j hi hj, h, ?_⟩
  intro h200
  rw [h]
  unfold dark
  rw [if_pos (Nat.le_of_eq h200)]

theorem sample_stage_interior_witness :
    1 * 8 * striped_image.y + 1 * 8 < striped_image.x * striped_image.y ∧
    sample_stage 8 8 2 striped_image stale_grid 1 1 =
      (if average (striped_image.data ((1 * 8 * striped_image.y + 1 * 8 : Nat) : Int)) ≤ 200
        then 1 else 0) ∧
    (average (striped_image.data ((1 * 8 * striped_image.y + 1 * 8 : Nat) : Int)) = 200 →
      sample_stage 8 8 2 striped_image stale_grid 1 1 = 1) :=
  sample_stage_interior 8 8 2 striped_image stale_grid (by decide) 1 1 (by decide) (by decide)

/-- C3, at the input where the code departs from it: for the raster `tall_image`
(`x = 8`, `y = 16`, step 8, so `p = 1`, `q = 2`) the boundary-column cell
`grid[0][2]` is `1`, the sample of the pixel at offset `0 * 8 * 16 + 8 - 1 = 7`,
while the last pixel of row `0`, at offset `0 * 8 * 16 + (16 - 1) = 15`, is bright
and would give `0`. -/
theorem sample_stage_boundary_column_tall :
    sample_stage 8 8 1 tall_image stale_grid 0 (tall_image.y / 8) = 1 ∧
    sample_stage 8 8 1 tall_image stale_grid 0 (tall_image.y / 8) ≠
      (if average (tall_image.data ((0 * 8 * tall_image.y + (tall_image.y - 1) : Nat) : Int)) ≤ 200
        then 1 else 0) := by
  decide

/-- C4: for a raster with `X ≥ 1` and `P ≥ 1`, after `sample_grid` has run for
all tasks, every boundary-row cell `grid[p][j]`, `j < q`, holds the sample of the
pixel at offset `(X - 1) * Y + j * step_y`, and the corner `grid[p][q]` is `0`. -/
theorem sample_stage_boundary_row (step_x step_y P : Nat) (image : ppm_image) (grid : Grid)
    (hx : 1 ≤ image.x) (hP : 1 ≤ P) :
    (∀ j, j < image.y / step_y →
      sample_stage step_x step_y P image grid (image.x / step_x) j =
        (if average (image.data (((image.x - 1) * image.y + j * step_y : Nat) : Int)) ≤ 200
          then 1 else 0)) ∧
    sample_stage step_x step_y P image grid (image.x / step_x) (image.y / step_y) = 0 := by
  constructor
  · intro j hj
    rw [sample_stage_apply step_x step_y P hP, if_pos ⟨Nat.le_refl _, Nat.le_of_lt hj⟩]
    unfold sampled
    rw [if_pos rfl, if_neg (Nat.ne_of_lt hj)]
    have h3 : row_offset step_y image j
        = (((image.x - 1) * image.y + j * step_y : Nat) : Int) := by
      unfold row_offset
      push_cast [Nat.cast_sub hx]
      ring
    rw [h3]
    rfl
  · rw [sample_stage_apply step_x step_y P hP, if_pos ⟨Nat.le_refl _, Nat.le_refl _⟩]
    unfold sampled
    rw [if_pos rfl, if_pos rfl]

theorem sample_stage_boundary_row_witness :
    (∀ j, j < striped_image.y / 8 →
      sample_stage 8 8 2 striped_image stale_grid (striped_image.x / 8) j =
        (if average (striped_image.data
            (((striped_image.x - 1) * striped_image.y + j * 8 : Nat) : Int)) ≤ 200
          then 1 else 0)) ∧
    sample_stage 8 8 2 striped_image stale_grid (striped_image.x / 8) (striped_image.y / 8) = 0 :=
  sample_stage_boundary_row 8 8 2 striped_image stale_grid (by decide) (by decide)

/-- C8, at the input where the code departs from it: for the raster `thin_image`
(`x = 16`, `y = 1`, 16 pixels, step 8, one task) `sample_grid` loads the offsets
`15` and `23`, and `23` is not below `x * y = 16`. -/
theorem sample_grid_reads_thin :
    sample_grid_reads ⟨0, 8, 8, 1⟩ thin_image = [15, 23] ∧
    ¬ ((23 : Int) < ((thin_image.x * thin_image.y : Nat) : Int)) := by
  decide

/-- The rasters `long_image` and `long_image_beyond` have the same pixels: they
differ only in the memory after the raster. -/
theorem long_image_same_pixels (n : Int) (h0 : 0 ≤ n)
    (h1 : n < ((long_image.x * long_image.y : Nat) : Int)) :
    long_image.x = long_image_beyond.x ∧ long_image.y = long_image_beyond.y ∧
    long_image.data n = long_image_beyond.data n := by
  refine ⟨rfl, rfl, ?_⟩
  have h2 : n < 576 := h1
  have h3 : n ≠ 583 := by omega
  show white = if n = 583 then black else white
  rw [if_neg h3]

theorem march_eq (t step_x step_y P : Nat) (contour_map : Nat → ppm_image) (grid : Grid)
    (image : ppm_image) :
    march ⟨t, step_x, step_y, P⟩ contour_map grid image =
      for_loop (start_i t (image.x / step_x) P) (end_i t (image.x / step_x) P)
        (fun i im => for_loop 0 (image.y / step_y)
          (fun j im => update_image im (contour_map (config grid i j))
            (i * step_x) (j * step_y)) im) image :=
  rfl

/-- `march` leaves the dimensions of the image alone. -/
theorem march_dims (data : thread_data) (contour_map : Nat → ppm_image) (grid : Grid)
    (image : ppm_image) :
    (march data contour_map grid image).x = image.x ∧
    (march data contour_map grid image).y = image.y := by
  unfold march
  simp only
  apply for_loop_invariant (fun im : ppm_image => im.x = image.x ∧ im.y = image.y)
  · intro i _ _ s hs
    apply for_loop_invariant (fun im : ppm_image => im.x = image.x ∧ im.y = image.y)
    · intro j _ _ s hs
      have := update_image_dims s
        (contour_map ((8 * (grid i j).val + 4 * (grid i (j + 1)).val
          + 2 * (grid (i + 1) (j + 1)).val + 1 * (grid (i + 1) j).val) % 256))
        (i * data.step_x) (j * data.step_y)
      exact ⟨this.1.trans hs.1, this.2.trans hs.2⟩
    · exact hs
  · exact ⟨rfl, rfl⟩

/-- Stamping the cell `(i, j)` leaves the pixels of every other cell alone. -/
theorem stamp_other_cell (s : Nat) (contour im : ppm_image) (Y : Nat) (hY : im.y = Y)
    (hc : contour.x = s ∧ contour.y = s) (i j i0 j0 a b : Nat)
    (hj : j < Y / s) (hj0 : j0 < Y / s) (ha : a < s) (hb : b < s)
    (hne : ¬ (i = i0 ∧ j = j0)) :
    (update_image im contour (i * s) (j * s)).data
        (((i0 * s + a) * Y + (j0 * s + b) : Nat) : Int)
      = im.data (((i0 * s + a) * Y + (j0 * s + b) : Nat) : Int) := by
  apply update_image_frame
  intro a' b' ha' hb' h
  rw [hc.1] at ha'
  rw [hc.2] at hb'
  rw [hY] at h
  have h' : (i0 * s + a) * Y + (j0 * s + b) = (i * s + a') * Y + (j * s + b') := by
    have := Int.ofNat_inj.mp h
    omega
  obtain ⟨h1, h2, _, _⟩ := cell_offset_inj Y s i0 j0 a b i j a' b' hj0 hj ha hb ha' hb' h'
  exact hne ⟨h1.symm, h2.symm⟩

/-- Stamping the cell `(i0, j0)` copies the stencil to the pixels of the cell. -/
theorem stamp_cell (s : Nat) (contour im : ppm_image) (Y : Nat) (hY : im.y = Y)
    (hc : contour.x = s ∧ contour.y = s) (i0 j0 a b : Nat)
    (hj0 : j0 < Y / s) (ha : a < s) (hb : b < s) :
    (update_image im contour (i0 * s) (j0 * s)).data
        (((i0 * s + a) * Y + (j0 * s + b) : Nat) : Int)
      = contour.data ((s * a + b : Nat) : Int) := by
  have hfit : j0 * s + contour.y ≤ im.y := by
    rw [hc.2, hY]
    have hs : 0 < s := Nat.lt_of_le_of_lt (Nat.zero_le a) ha
    have h1 : (j0 + 1) * s ≤ Y := (Nat.le_div_iff_mul_le hs).mp hj0
    rw [Nat.add_mul, Nat.one_mul] at h1
    exact h1
  have := update_image_copies im contour (i0 * s) (j0 * s) a b hfit
    (by rw [hc.1]; exact ha) (by rw [hc.2]; exact hb)
  rw [hY, hc.1, Nat.add_assoc] at this
  exact this

/-- The pixels of the cell `(i0, j0)` after one call of `march`: the stencil of
the cell when the row `i0` belongs to the task, the old pixels otherwise. -/
theorem march_cell (t s P : Nat) (contour_map : Nat → ppm_image) (grid : Grid)
    (image : ppm_image)
    (hc : ∀ i j, i < image.x / s → j < image.y / s →
      (contour_map (config grid i j)).x = s ∧ (contour_map (config grid i j)).y = s)
    (i0 j0 a b : Nat) (hj0 : j0 < image.y / s) (ha : a < s) (hb : b < s) :
    (march ⟨t, s, s, P⟩ contour_map grid image).data
        (((i0 * s + a) * image.y + (j0 * s + b) : Nat) : Int)
      = if start_i t (image.x / s) P ≤ i0 ∧ i0 < end_i t (image.x / s) P
        then (contour_map (config grid i0 j0)).data ((s * a + b : Nat) : Int)
        else image.data (((i0 * s + a) * image.y + (j0 * s + b) : Nat) : Int) := by
  rw [march_eq]
  have hend := end_i_le (image.x / s) P t
  have hinner : ∀ i, i < image.x / s → ∀ im : ppm_image, im.y = image.y →
      (for_loop 0 (image.y / s) (fun j im => update_image im (contour_map (config grid i j))
        (i * s) (j * s)) im).y = image.y := by
    intro i _ im him
    apply for_loop_invariant (fun im : ppm_image => im.y = image.y)
    · intro j _ _ s' hs'
      exact (update_image_dims s' _ _ _).2.trans hs'
    · exact him
  by_cases hin : start_i t (image.x / s) P ≤ i0 ∧ i0 < end_i t (image.x / s) P
  · rw [if_pos hin]
    apply for_loop_obs_set
      (fun im : ppm_image => im.data (((i0 * s + a) * image.y + (j0 * s + b) : Nat) : Int))
      (fun im => im.y = image.y) _ _ _ _ _ i0 hin.1 hin.2
    · intro im him
      apply for_loop_obs_set
        (fun im : ppm_image => im.data (((i0 * s + a) * image.y + (j0 * s + b) : Nat) : Int))
        (fun im => im.y = image.y) _ _ _ _ _ j0 (Nat.zero_le j0) hj0
      · intro im him
        exact stamp_cell s _ im image.y him (hc i0 j0 (by omega) hj0) i0 j0 a b hj0 ha hb
      · intro j _ hj hne im him
        exact stamp_other_cell s _ im image.y him (hc i0 j (by omega) hj) i0 j i0 j0 a b
          hj hj0 ha hb (fun h => hne h.2)
      · exact him
      · intro j _ _ im him
        exact (update_image_dims im _ _ _).2.trans him
    · intro i _ hi hne im him
      apply for_loop_obs_frame
        (fun im : ppm_image => im.data (((i0 * s + a) * image.y + (j0 * s + b) : Nat) : Int))
        (fun im => im.y = image.y)
      · intro j _ _ im him
        exact (update_image_dims im _ _ _).2.trans him
      · intro j _ hj im him
        exact stamp_other_cell s _ im image.y him (hc i j (by omega) hj) i j i0 j0 a b
          hj hj0 ha hb (fun h => hne h.1)
      · exact him
    · rfl
    · intro i _ hi im him
      exact hinner i (by omega) im him
  · rw [if_neg hin]
    apply for_loop_obs_frame
      (fun im : ppm_image => im.data (((i0 * s + a) * image.y + (j0 * s + b) : Nat) : Int))
      (fun im => im.y = image.y)
    · intro i _ hi im him
      exact hinner i (by omega) im him
    · intro i hlo hi im him
      apply for_loop_obs_frame
        (fun im : ppm_image => im.data (((i0 * s + a) * image.y + (j0 * s + b) : Nat) : Int))
        (fun im => im.y = image.y)
      · intro j _ _ im him
        exact (update_image_dims im _ _ _).2.trans him
      · intro j _ hj im him
        exact stamp_other_cell s _ im image.y him (hc i j (by omega) hj) i j i0 j0 a b
          hj hj0 ha hb (fun h => hin (h.1 ▸ ⟨hlo, hi⟩))
      · exact him
    · rfl

/-- The Stamp stage leaves the dimensions of the image alone. -/
theorem march_stage_dims (step_x step_y P : Nat) (contour_map : Nat → ppm_image) (grid : Grid)
    (image : ppm_image) :
    (march_stage step_x step_y P contour_map grid image).x = image.x ∧
    (march_stage step_x step_y P contour_map grid image).y = image.y := by
  unfold march_stage run_tasks
  apply for_loop_invariant (fun im : ppm_image => im.x = image.x ∧ im.y = image.y)
  · intro t _ _ im him
    have := march_dims ⟨t, step_x, step_y, P⟩ contour_map grid im
    exact ⟨this.1.trans him.1, this.2.trans him.2⟩
  · exact ⟨rfl, rfl⟩

/-- The pixels of the cell `(i0, j0)` after the Stamp stage are the stencil of the
cell. -/
theorem march_stage_cell (s P : Nat) (hP : 0 < P) (contour_map : Nat → ppm_image)
    (grid : Grid) (image : ppm_image)
    (hc : ∀ i j, i < image.x / s → j < image.y / s →
      (contour_map (config grid i j)).x = s ∧ (contour_map (config grid i j)).y = s)
    (i0 j0 a b : Nat) (hi0 : i0 < image.x / s) (hj0 : j0 < image.y / s)
    (ha : a < s) (hb : b < s) :
    (march_stage s s P contour_map grid image).data
        (((i0 * s + a) * image.y + (j0 * s + b) : Nat) : Int)
      = (contour_map (config grid i0 j0)).data ((s * a + b : Nat) : Int) := by
  unfold march_stage run_tasks
  obtain ⟨t0, ht0, h1, h2⟩ := exists_task (image.x / s) P i0 hP hi0
  have hstep : ∀ (t : Nat) (im : ppm_image), im.x = image.x ∧ im.y = image.y →
      (march ⟨t, s, s, P⟩ contour_map grid im).data
          (((i0 * s + a) * image.y + (j0 * s + b) : Nat) : Int)
        = if start_i t (image.x / s) P ≤ i0 ∧ i0 < end_i t (image.x / s) P
          then (contour_map (config grid i0 j0)).data ((s * a + b : Nat) : Int)
          else im.data (((i0 * s + a) * image.y + (j0 * s + b) : Nat) : Int) := by
    intro t im him
    have := march_cell t s P contour_map grid im (by rw [him.1, him.2]; exact hc) i0 j0 a b
      (by rw [him.2]; exact hj0) ha hb
    rw [him.1, him.2] at this
    exact this
  apply for_loop_establishes (fun im : ppm_image => im.x = image.x ∧ im.y = image.y)
    (fun im : ppm_image => im.data (((i0 * s + a) * image.y + (j0 * s + b) : Nat) : Int)
      = (contour_map (config grid i0 j0)).data ((s * a + b : Nat) : Int)) 0 P _ _ _
    t0 (Nat.zero_le t0) ht0
  · intro im him
    show (march ⟨t0, s, s, P⟩ contour_map grid im).data _ = _
    rw [hstep t0 im him, if_pos ⟨h1, h2⟩]
  · exact ⟨rfl, rfl⟩
  · intro t _ _ im him
    have := march_dims ⟨t, s, s, P⟩ contour_map grid im
    exact ⟨this.1.trans him.1, this.2.trans him.2⟩
  · intro t _ _ im him hq
    show (march ⟨t, s, s, P⟩ contour_map grid im).data _ = _
    rw [hstep t im him]
    split
    · rfl
    · exact hq

/-- The configuration code of a cell of a grid of zeros and ones. -/
theorem config_eq (grid : Grid) (i j : Nat)
    (h00 : (grid i j).val ≤ 1) (h01 : (grid i (j + 1)).val ≤ 1)
    (h11 : (grid (i + 1) (j + 1)).val ≤ 1) (h10 : (grid (i + 1) j).val ≤ 1) :
    config grid i j = 8 * (grid i j).val + 4 * (grid i (j + 1)).val
      + 2 * (grid (i + 1) (j + 1)).val + (grid (i + 1) j).val ∧ config grid i j < 16 := by
  unfold config
  have h : (8 * (grid i j).val + 4 * (grid i (j + 1)).val
      + 2 * (grid (i + 1) (j + 1)).val + 1 * (grid (i + 1) j).val) % 256
      = 8 * (grid i j).val + 4 * (grid i (j + 1)).val
      + 2 * (grid (i + 1) (j + 1)).val + (grid (i + 1) j).val := by
    rw [Nat.one_mul]
    apply Nat.mod_eq_of_lt
    omega
  rw [h]
  exact ⟨rfl, by omega⟩

/-! ## The Stamp stage: the claims -/

/-- C1: for a raster of `X x Y` pixels, a step `s` in both directions, sixteen
stencils of `s x s` pixels, a grid whose cells `(i, j)`, `i ≤ p`, `j ≤ q`, are `0`
or `1`, and `P ≥ 1`: after `march` has run for the task ids `0..P-1`, for every
cell `(i, j)` with `i < p`, `j < q` and every `a, b < s`, the pixel at offset
`(i*s + a) * Y + (j*s + b)`, a pixel of the raster, is pixel `(a, b)` (offset
`a*s + b`) of the stencil number
`8*grid[i][j] + 4*grid[i][j+1] + 2*grid[i+1][j+1] + grid[i+1][j]`. -/
theorem march_stage_stamps (image : ppm_image) (s : Nat) (contour_map : Nat → ppm_image)
    (hcm : ∀ k, k < CONTOUR_CONFIG_COUNT → (contour_map k).x = s ∧ (contour_map k).y = s)
    (grid : Grid)
    (hg : ∀ i j, i ≤ image.x / s → j ≤ image.y / s → (grid i j).val ≤ 1)
    (P : Nat) (hP : 1 ≤ P) (i j a b : Nat)
    (hi : i < image.x / s) (hj : j < image.y / s) (ha : a < s) (hb : b < s) :
    (i * s + a) * image.y + (j * s + b) < image.x * image.y ∧
    (march_stage s s P contour_map grid image).data
        (((i * s + a) * image.y + (j * s + b) : Nat) : Int)
      = (contour_map (8 * (grid i j).val + 4 * (grid i (j + 1)).val
          + 2 * (grid (i + 1) (j + 1)).val + (grid (i + 1) j).val)).data
          ((a * s + b : Nat) : Int) := by
  constructor
  · have h1 := cell_lt image.x s i a hi ha
    have h2 := cell_lt image.y s j b hj hb
    have h3 : (i * s + a + 1) * image.y ≤ image.x * image.y :=
      Nat.mul_le_mul_right image.y h1
    rw [Nat.add_mul, Nat.one_mul] at h3
    omega
  · have hcfg : ∀ i j, i < image.x / s → j < image.y / s →
        config grid i j = 8 * (grid i j).val + 4 * (grid i (j + 1)).val
          + 2 * (grid (i + 1) (j + 1)).val + (grid (i + 1) j).val ∧ config grid i j < 16 :=
      fun i j hi hj => config_eq grid i j (hg i j (Nat.le_of_lt hi) (Nat.le_of_lt hj))
        (hg i (j + 1) (Nat.le_of_lt hi) hj) (hg (i + 1) (j + 1) hi hj)
        (hg (i + 1) j hi (Nat.le_of_lt hj))
    rw [march_stage_cell s P hP contour_map grid image
      (fun i j hi hj => hcm _ (hcfg i j hi hj).2) i j a b hi hj ha hb,
      (hcfg i j hi hj).1, Nat.mul_comm s a]

theorem march_stage_stamps_witness :
    (1 * 2 + 1) * small_image.y + (2 * 2 + 0) < small_image.x * small_image.y ∧
    (march_stage 2 2 3 small_contour_map checker_grid small_image).data
        (((1 * 2 + 1) * small_image.y + (2 * 2 + 0) : Nat) : Int)
      = (small_contour_map (8 * (checker_grid 1 2).val + 4 * (checker_grid 1 (2 + 1)).val
          + 2 * (checker_grid (1 + 1) (2 + 1)).val + (checker_grid (1 + 1) 2).val)).data
          ((1 * 2 + 0 : Nat) : Int) :=
  march_stage_stamps small_image 2 small_contour_map (fun _ _ => ⟨rfl, rfl⟩) checker_grid
    (fun i j _ _ => by unfold checker_grid; split <;> decide) 3 (by decide) 1 2 1 0
    (by decide) (by decide) (by decide) (by decide)

/-- A pixel brighter than the threshold is sampled as `0`. -/
theorem dark_of_bright (px : ppm_pixel) (h : 200 < average px) : dark px = 0 := by
  unfold dark
  rw [if_neg (by omega)]

/-- On a square raster whose pixels are all brighter than the threshold every
value the Sample stage stores is `0`. -/
theorem sampled_bright (step_x step_y : Nat) (image : ppm_image) (hsq : image.x = image.y)
    (hx : 1 ≤ image.x)
    (hbright : ∀ n : Nat, n < image.x * image.y → 200 < average (image.data (n : Int)))
    (a b : Nat) (ha : a ≤ image.x / step_x) (hb : b ≤ image.y / step_y) :
    sampled step_x step_y image a b = 0 := by
  have hint : ∀ k : Int, 0 ≤ k → k < ((image.x * image.y : Nat) : Int) →
      dark (image.data k) = 0 := by
    intro k h0 h1
    obtain ⟨n, rfl⟩ := Int.eq_ofNat_of_zero_le h0
    exact dark_of_bright _ (hbright n (by exact_mod_cast h1))
  unfold sampled
  split
  · split
    · rfl
    · rename_i h1 h2
      have := row_offset_lt step_y image b hx (Nat.lt_of_le_of_ne hb h2)
      exact hint _ this.1 this.2
  · split
    · rename_i h1 h2
      have := column_offset_square step_x image a hsq (Nat.lt_of_le_of_ne ha h1)
      exact hint _ this.1 this.2
    · rename_i h1 h2
      unfold interior_offset
      apply hint _ (Int.ofNat_nonneg _)
      exact_mod_cast interior_offset_lt step_x step_y image a b (Nat.lt_of_le_of_ne ha h1)
        (Nat.lt_of_le_of_ne hb h2)

/-- C9: for a raster of `2048 x 2048` pixels that are all brighter than the
threshold (`(R + G + B) / 3 > 200`), step 8, sixteen stencils of `8 x 8` pixels
and `P ≥ 1`: after the Sample stage every cell of the `257 x 257` grid is `0`,
and after the Stamp stage every pixel `(i*8 + a, j*8 + b)`, `i, j < 256`,
`a, b < 8`, is pixel `(a, b)` of stencil `0`. -/
theorem bright_raster_stencil_zero (pixels : Int → ppm_pixel)
    (hbright : ∀ n : Nat, n < 2048 * 2048 → 200 < average (pixels (n : Int)))
    (contour_map : Nat → ppm_image)
    (hcm : ∀ k, k < CONTOUR_CONFIG_COUNT → (contour_map k).x = 8 ∧ (contour_map k).y = 8)
    (grid : Grid) (P : Nat) (hP : 1 ≤ P) :
    (∀ i j, i ≤ 256 → j ≤ 256 → sample_stage 8 8 P ⟨2048, 2048, pixels⟩ grid i j = 0) ∧
    (∀ i j a b, i < 256 → j < 256 → a < 8 → b < 8 →
      (march_stage 8 8 P contour_map (sample_stage 8 8 P ⟨2048, 2048, pixels⟩ grid)
          ⟨2048, 2048, pixels⟩).data (((i * 8 + a) * 2048 + (j * 8 + b) : Nat) : Int)
        = (contour_map 0).data ((a * 8 + b : Nat) : Int)) := by
  have hzero : ∀ i j, i ≤ 256 → j ≤ 256 →
      sample_stage 8 8 P ⟨2048, 2048, pixels⟩ grid i j = 0 := by
    intro i j hi hj
    have hi' : i ≤ (⟨2048, 2048, pixels⟩ : ppm_image).x / 8 := by show i ≤ 2048 / 8; omega
    have hj' : j ≤ (⟨2048, 2048, pixels⟩ : ppm_image).y / 8 := by show j ≤ 2048 / 8; omega
    rw [sample_stage_apply 8 8 P hP, if_pos ⟨hi', hj'⟩]
    exact sampled_bright 8 8 ⟨2048, 2048, pixels⟩ rfl (by show 1 ≤ 2048; omega) hbright
      i j hi' hj'
  refine ⟨hzero, ?_⟩
  intro i j a b hi hj ha hb
  have hcfg : ∀ i j, i < 256 → j < 256 →
      config (sample_stage 8 8 P ⟨2048, 2048, pixels⟩ grid) i j = 0 := by
    intro i j hi hj
    unfold config
    rw [hzero i j (Nat.le_of_lt hi) (Nat.le_of_lt hj), hzero i (j + 1) (Nat.le_of_lt hi) hj,
      hzero (i + 1) (j + 1) hi hj, hzero (i + 1) j hi (Nat.le_of_lt hj)]
    rfl
  have h256 : ∀ n, n < (2048 : Nat) / 8 → n < 256 := fun n h => by omega
  have := march_stage_cell 8 P hP contour_map (sample_stage 8 8 P ⟨2048, 2048, pixels⟩ grid)
    ⟨2048, 2048, pixels⟩
    (fun i j hi hj => by rw [hcfg i j (h256 i hi) (h256 j hj)]; exact hcm 0 (by decide))
    i j a b (by show i < 2048 / 8; omega) (by show j < 2048 / 8; omega) ha hb
  rw [hcfg i j hi hj, Nat.mul_comm 8 a] at this
  exact this

theorem bright_raster_stencil_zero_witness :
    (∀ i j, i ≤ 256 → j ≤ 256 →
      sample_stage 8 8 8 ⟨2048, 2048, fun _ => white⟩ stale_grid i j = 0) ∧
    (∀ i j a b, i < 256 → j < 256 → a < 8 → b < 8 →
      (march_stage 8 8 8 white_contour_map
          (sample_stage 8 8 8 ⟨2048, 2048, fun _ => white⟩ stale_grid)
          ⟨2048, 2048, fun _ => white⟩).data (((i * 8 + a) * 2048 + (j * 8 + b) : Nat) : Int)
        = (white_contour_map 0).data ((a * 8 + b : Nat) : Int)) :=
  bright_raster_stencil_zero (fun _ => white)
    (fun (n : Nat) (_ : n < 2048 * 2048) => (by decide : 200 < average white)) white_contour_map
    (fun _ _ => ⟨rfl, rfl⟩) stale_grid 8 (by decide)

/-! ## Loops, continued -/

theorem for_loop_succ {σ : Type} (lo hi : Nat) (h : lo ≤ hi) (body : Nat → σ → σ) (s : σ) :
    for_loop lo (hi + 1) body s = body hi (for_loop lo hi body s) := by
  rw [← for_loop_append lo hi (hi + 1) h (Nat.le_succ hi)]
  generalize for_loop lo hi body s = s'
  unfold for_loop
  have : hi + 1 - hi = 1 := by omega
  rw [this]
  rfl

/-- Two loops whose bodies keep a relation between their states end in related
states. -/
theorem for_loop_sim {σ τ : Type} (R : σ → τ → Prop) (lo hi : Nat) (f : Nat → σ → σ)
    (g : Nat → τ → τ)
    (h : ∀ i, lo ≤ i → i < hi → ∀ s t, R s t → R (f i s) (g i t))
    (s : σ) (t : τ) (hR : R s t) :
    R (for_loop lo hi f s) (for_loop lo hi g t) := by
  by_cases hle : lo ≤ hi
  · obtain ⟨n, rfl⟩ := Nat.exists_eq_add_of_le hle
    clear hle
    induction n with
    | zero =>
      rw [for_loop_empty lo (lo + 0) (Nat.le_refl _), for_loop_empty lo (lo + 0) (Nat.le_refl _)]
      exact hR
    | succ n ih =>
      rw [← Nat.add_assoc, for_loop_succ lo (lo + n) (Nat.le_add_right lo n),
        for_loop_succ lo (lo + n) (Nat.le_add_right lo n)]
      apply h (lo + n) (Nat.le_add_right lo n) (by omega)
      apply ih
      intro i h1 h2 s t hst
      exact h i h1 (by omega) s t hst
  · rw [for_loop_empty lo hi (by omega), for_loop_empty lo hi (by omega)]
    exact hR

/-- Tasks that each run the rows of their own range run, one after the other,
all the rows in order. -/
theorem run_tasks_fuse {σ : Type} (N P : Nat) (hP : 0 < P) (body : Nat → σ → σ)
    (task : Nat → σ → σ) (I : σ → Prop)
    (hI : ∀ i s, I s → I (body i s))
    (htask : ∀ t s, t < P → I s →
      task t s = for_loop (start_i t N P) (end_i t N P) body s)
    (s : σ) (hs : I s) :
    run_tasks P task s = for_loop 0 N body s := by
  have hpre : ∀ k, k ≤ P → for_loop 0 k task s = for_loop 0 (start_i k N P) body s := by
    intro k
    induction k with
    | zero =>
      intro _
      rw [start_i_zero, for_loop_empty 0 0 (Nat.le_refl 0), for_loop_empty 0 0 (Nat.le_refl 0)]
    | succ k ih =>
      intro hk
      rw [for_loop_succ 0 k (Nat.zero_le k), ih (Nat.le_of_succ_le hk)]
      rw [htask k _ hk (for_loop_invariant I _ _ body (fun i _ _ s hs => hI i s hs) s hs)]
      rw [end_i_eq_start_i N P k hP hk]
      exact for_loop_append 0 _ _ (Nat.zero_le _) (start_i_mono N P (Nat.le_succ k)) body s
  unfold run_tasks
  rw [hpre P (Nat.le_refl P), start_i_last N P hP]

/-! ## The Stamp stage does not depend on the number of tasks -/

theorem march_row_dims (step_x step_y : Nat) (contour_map : Nat → ppm_image) (grid : Grid)
    (q i : Nat) (image : ppm_image) :
    (march_row step_x step_y contour_map grid q i image).x = image.x ∧
    (march_row step_x step_y contour_map grid q i image).y = image.y := by
  unfold march_row
  apply for_loop_invariant (fun im : ppm_image => im.x = image.x ∧ im.y = image.y)
  · intro j _ _ s hs
    have := update_image_dims s (contour_map (config grid i j)) (i * step_x) (j * step_y)
    exact ⟨this.1.trans hs.1, this.2.trans hs.2⟩
  · exact ⟨rfl, rfl⟩

theorem march_eq_rows (t step_x step_y P : Nat) (contour_map : Nat → ppm_image) (grid : Grid)
    (image : ppm_image) :
    march ⟨t, step_x, step_y, P⟩ contour_map grid image =
      for_loop (start_i t (image.x / step_x) P) (end_i t (image.x / step_x) P)
        (march_row step_x step_y contour_map grid (image.y / step_y)) image :=
  rfl

/-- The Stamp stage stamps the grid rows `0..p-1` in order, whatever `P ≥ 1` is. -/
theorem march_stage_eq_rows (step_x step_y P : Nat) (hP : 0 < P)
    (contour_map : Nat → ppm_image) (grid : Grid) (image : ppm_image) :
    march_stage step_x step_y P contour_map grid image =
      for_loop 0 (image.x / step_x)
        (march_row step_x step_y contour_map grid (image.y / step_y)) image := by
  unfold march_stage
  apply run_tasks_fuse (image.x / step_x) P hP _ _
    (fun im : ppm_image => im.x = image.x ∧ im.y = image.y)
  · intro i s hs
    have := march_row_dims step_x step_y contour_map grid (image.y / step_y) i s
    exact ⟨this.1.trans hs.1, this.2.trans hs.2⟩
  · intro t s _ hs
    rw [march_eq_rows, hs.1, hs.2]
  · exact ⟨rfl, rfl⟩

/-- The Sample stage gives the same grid whatever `P ≥ 1` is. -/
theorem sample_stage_eq_one (step_x step_y P : Nat) (hP : 0 < P) (image : ppm_image)
    (grid : Grid) :
    sample_stage step_x step_y P image grid = sample_stage step_x step_y 1 image grid := by
  funext a b
  rw [sample_stage_apply step_x step_y P hP, sample_stage_apply step_x step_y 1 Nat.one_pos]

/-! ## The Rescale stage -/

theorem rescale_image_within {F : Type} (rs : resampler F) (data : thread_data)
    (image new_image : ppm_image) (h : within_resolution image) :
    rescale_image rs data image new_image = (image_ptr.image, new_image) := by
  have h' : image.x ≤ RESCALE_X ∧ image.y ≤ RESCALE_Y := h
  unfold rescale_image
  rw [if_pos h']

theorem rescale_image_beyond {F : Type} (rs : resampler F) (t step_x step_y P : Nat)
    (image new_image : ppm_image) (h : ¬ within_resolution image) :
    rescale_image rs ⟨t, step_x, step_y, P⟩ image new_image =
      (image_ptr.new_image,
        for_loop (start_i t RESCALE_X P) (end_i t RESCALE_X P) (rescale_row rs image)
          { x := RESCALE_X, y := RESCALE_Y, data := new_image.data }) := by
  have h' : ¬ (image.x ≤ RESCALE_X ∧ image.y ≤ RESCALE_Y) := h
  unfold rescale_image
  rw [if_neg h']
  rfl

theorem rescale_pixel_dims {F : Type} (rs : resampler F) (image : ppm_image) (i j : Nat)
    (new_image : ppm_image) :
    (rescale_pixel rs image i j new_image).x = new_image.x ∧
    (rescale_pixel rs image i j new_image).y = new_image.y :=
  ⟨rfl, rfl⟩

theorem rescale_row_dims {F : Type} (rs : resampler F) (image : ppm_image) (i : Nat)
    (new_image : ppm_image) :
    (rescale_row rs image i new_image).x = new_image.x ∧
    (rescale_row rs image i new_image).y = new_image.y := by
  unfold rescale_row
  apply for_loop_invariant (fun im : ppm_image => im.x = new_image.x ∧ im.y = new_image.y)
  · intro j _ _ s hs
    have := rescale_pixel_dims rs image i j s
    exact ⟨this.1.trans hs.1, this.2.trans hs.2⟩
  · exact ⟨rfl, rfl⟩

/-- The raster `rescale_image` returns has the working resolution when the
source raster is beyond it. -/
theorem rescale_image_beyond_dims {F : Type} (rs : resampler F) (t step_x step_y P : Nat)
    (image new_image : ppm_image) (h : ¬ within_resolution image) :
    (rescale_image rs ⟨t, step_x, step_y, P⟩ image new_image).2.x = RESCALE_X ∧
    (rescale_image rs ⟨t, step_x, step_y, P⟩ image new_image).2.y = RESCALE_Y := by
  rw [rescale_image_beyond rs t step_x step_y P image new_image h]
  apply for_loop_invariant (fun im : ppm_image => im.x = RESCALE_X ∧ im.y = RESCALE_Y)
  · intro i _ _ s hs
    have := rescale_row_dims rs image i s
    exact ⟨this.1.trans hs.1, this.2.trans hs.2⟩
  · exact ⟨rfl, rfl⟩

/-! ## The three stages on the shared state -/

theorem rescale_image_fst {F : Type} (rs : resampler F) (t step_x step_y P : Nat)
    (image new_image : ppm_image) :
    (rescale_image rs ⟨t, step_x, step_y, P⟩ image new_image).1 =
      if within_resolution image then image_ptr.image else image_ptr.new_image := by
  by_cases h : within_resolution image
  · rw [rescale_image_within rs _ image new_image h, if_pos h]
  · rw [rescale_image_beyond rs t step_x step_y P image new_image h, if_neg h]

theorem deref_store (st : program_state) (ptr : image_ptr) (img : ppm_image) :
    (st.store ptr img).deref ptr = img := by
  cases ptr <;> rfl

theorem store_deref (st : program_state) (ptr : image_ptr) :
    st.store ptr (st.deref ptr) = st := by
  cases ptr <;> rfl

theorem store_store (st : program_state) (ptr : image_ptr) (img img' : ppm_image) :
    (st.store ptr img).store ptr img' = st.store ptr img' := by
  cases ptr <;> rfl

theorem store_grid (st : program_state) (ptr : image_ptr) (img : ppm_image) :
    (st.store ptr img).grid = st.grid := by
  cases ptr <;> rfl

theorem store_arguments (st : program_state) (ptr : image_ptr) (img : ppm_image) :
    (st.store ptr img).arguments_new_image = st.arguments_new_image := by
  cases ptr <;> rfl

/-- The state after the Rescale stage, started with a buffer of the working
resolution. -/
theorem rescale_stage_state {F : Type} (rs : resampler F) (P : Nat) (hP : 0 < P)
    (st : program_state)
    (hdims : st.new_image.x = RESCALE_X ∧ st.new_image.y = RESCALE_Y) :
    (run_tasks P (rescale_phase rs P) st).image = st.image ∧
    (run_tasks P (rescale_phase rs P) st).grid = st.grid ∧
    (run_tasks P (rescale_phase rs P) st).new_image =
      (if within_resolution st.image then st.new_image
        else for_loop 0 RESCALE_X (rescale_row rs st.image) st.new_image) ∧
    ∀ t, t < P → (run_tasks P (rescale_phase rs P) st).arguments_new_image t =
      if within_resolution st.image then image_ptr.image else image_ptr.new_image := by
  have hkeep : (run_tasks P (rescale_phase rs P) st).image = st.image ∧
      (run_tasks P (rescale_phase rs P) st).grid = st.grid := by
    unfold run_tasks
    apply for_loop_invariant (fun s : program_state => s.image = st.image ∧ s.grid = st.grid)
    · intro t _ _ s hs
      exact hs
    · exact ⟨rfl, rfl⟩
  refine ⟨hkeep.1, hkeep.2, ?_, ?_⟩
  · have hsim := for_loop_sim
      (fun (s : program_state) (nb : ppm_image) => s.image = st.image ∧ s.new_image = nb)
      0 P (rescale_phase rs P)
      (fun t nb => (rescale_image rs ⟨t, STEP, STEP, P⟩ st.image nb).2)
      (by
        intro t _ _ s nb hs
        refine ⟨hs.1, ?_⟩
        show (rescale_image rs ⟨t, STEP, STEP, P⟩ s.image s.new_image).2 = _
        rw [hs.1, hs.2])
      st st.new_image ⟨rfl, rfl⟩
    unfold run_tasks
    rw [hsim.2]
    by_cases h : within_resolution st.image
    · rw [if_pos h]
      apply for_loop_invariant (fun nb : ppm_image => nb = st.new_image)
      · intro t _ _ nb hnb
        rw [rescale_image_within rs _ st.image nb h]
        exact hnb
      · rfl
    · rw [if_neg h]
      apply run_tasks_fuse RESCALE_X P hP (rescale_row rs st.image) _
        (fun nb : ppm_image => nb.x = RESCALE_X ∧ nb.y = RESCALE_Y)
      · intro i nb hnb
        have := rescale_row_dims rs st.image i nb
        exact ⟨this.1.trans hnb.1, this.2.trans hnb.2⟩
      · intro t nb _ hnb
        rw [rescale_image_beyond rs t STEP STEP P st.image nb h]
        obtain ⟨x, y, d⟩ := nb
        simp only at hnb
        rw [hnb.1, hnb.2]
      · exact hdims
  · intro t ht
    unfold run_tasks
    apply for_loop_establishes (fun s : program_state => s.image = st.image)
      (fun s : program_state => s.arguments_new_image t =
        if within_resolution st.image then image_ptr.image else image_ptr.new_image)
      0 P _ _ _ t (Nat.zero_le t) ht
    · intro s hs
      show (if t = t then (rescale_image rs ⟨t, STEP, STEP, P⟩ s.image s.new_image).1
        else s.arguments_new_image t) = _
      rw [if_pos rfl, rescale_image_fst, hs]
    · rfl
    · intro u _ _ s hs
      exact hs
    · intro u _ _ s hs hq
      show (if t = u then (rescale_image rs ⟨u, STEP, STEP, P⟩ s.image s.new_image).1
        else s.arguments_new_image t) = _
      split
      · rw [rescale_image_fst, hs]
      · exact hq

/-- The state after the Sample stage, when the tasks share one working raster. -/
theorem sample_stage_state (P : Nat) (st : program_state) (ptr : image_ptr)
    (hptr : ∀ t, t < P → st.arguments_new_image t = ptr) :
    run_tasks P (sample_phase P) st =
      { st with grid := sample_stage STEP STEP P (st.deref ptr) st.grid } := by
  unfold run_tasks sample_stage run_tasks
  apply for_loop_sim
    (fun (s : program_state) (g : Grid) => s = { st with grid := g })
    0 P (sample_phase P) (fun t g => sample_grid ⟨t, STEP, STEP, P⟩ (st.deref ptr) g)
  · intro t _ ht s g hs
    subst hs
    unfold sample_phase
    simp only
    rw [hptr t ht]
    cases ptr <;> rfl
  · rfl

/-- The state after the Stamp stage, when the tasks share one working raster. -/
theorem march_stage_state (contour_map : Nat → ppm_image) (P : Nat) (st : program_state)
    (ptr : image_ptr) (hptr : ∀ t, t < P → st.arguments_new_image t = ptr) :
    run_tasks P (march_phase contour_map P) st =
      st.store ptr (march_stage STEP STEP P contour_map st.grid (st.deref ptr)) := by
  unfold run_tasks march_stage run_tasks
  apply for_loop_sim
    (fun (s : program_state) (im : ppm_image) => s = st.store ptr im)
    0 P (march_phase contour_map P)
    (fun t im => march ⟨t, STEP, STEP, P⟩ contour_map st.grid im)
  · intro t _ ht s im hs
    subst hs
    unfold march_phase
    rw [store_arguments, hptr t ht, deref_store, store_grid, store_store]
  · exact (store_deref st ptr).symm

/-- The grid and the output raster of a run with `P ≥ 1` tasks are the grid and
the raster a single pass over all rows computes. -/
theorem run_phases_reference {F : Type} (rs : resampler F) (contour_map : Nat → ppm_image)
    (P : Nat) (hP : 0 < P) (image : ppm_image) (buffer : Int → ppm_pixel) (grid : Grid) :
    (run_phases rs contour_map P (initial_state image buffer grid)).grid
      = reference_grid rs image buffer grid ∧
    output (run_phases rs contour_map P (initial_state image buffer grid))
      = reference_output rs contour_map image buffer grid := by
  obtain ⟨h1, h2, h3, h4⟩ := rescale_stage_state rs P hP (initial_state image buffer grid)
    ⟨rfl, rfl⟩
  generalize hst1 : run_tasks P (rescale_phase rs P) (initial_state image buffer grid) = st1
    at h1 h2 h3 h4
  replace h4 : ∀ t, t < P → st1.arguments_new_image t =
      if within_resolution image then image_ptr.image else image_ptr.new_image := h4
  have hw : st1.deref (if within_resolution image then image_ptr.image
      else image_ptr.new_image) = working_raster rs image buffer := by
    unfold working_raster
    by_cases h : within_resolution image
    · rw [if_pos h, if_pos h]
      exact h1
    · rw [if_neg h, if_neg h]
      show st1.new_image = _
      rw [h3]
      have h' : ¬ within_resolution (initial_state image buffer grid).image := h
      rw [if_neg h']
      rfl
  have hrun : run_phases rs contour_map P (initial_state image buffer grid) =
      run_tasks P (march_phase contour_map P) (run_tasks P (sample_phase P) st1) := by
    rw [← hst1]
    rfl
  generalize hp0 : (if within_resolution image then image_ptr.image
    else image_ptr.new_image) = p0 at h4 hw
  have hg : sample_stage STEP STEP P (st1.deref p0) st1.grid
      = reference_grid rs image buffer grid := by
    rw [hw, h2]
    unfold reference_grid
    exact sample_stage_eq_one STEP STEP P hP _ _
  rw [hrun, sample_stage_state P st1 p0 h4, hg]
  rw [march_stage_state contour_map P
    { st1 with grid := reference_grid rs image buffer grid } p0 h4]
  have hd : program_state.deref { st1 with grid := reference_grid rs image buffer grid } p0
      = working_raster rs image buffer := by
    rw [← hw]
    cases p0 <;> rfl
  rw [hd]
  constructor
  · rw [store_grid]
  · unfold output
    rw [store_arguments]
    simp only
    rw [h4 0 hP, deref_store, march_stage_eq_rows STEP STEP P hP]
    rfl

/-! ## The whole run: the claims -/

theorem working_raster_beyond_dims {F : Type} (rs : resampler F) (image : ppm_image)
    (buffer : Int → ppm_pixel) (h : ¬ within_resolution image) :
    (working_raster rs image buffer).x = RESCALE_X ∧
    (working_raster rs image buffer).y = RESCALE_Y := by
  unfold working_raster
  rw [if_neg h]
  apply for_loop_invariant (fun im : ppm_image => im.x = RESCALE_X ∧ im.y = RESCALE_Y)
  · intro i _ _ s hs
    have := rescale_row_dims rs image i s
    exact ⟨this.1.trans hs.1, this.2.trans hs.2⟩
  · exact ⟨rfl, rfl⟩

theorem reference_output_dims {F : Type} (rs : resampler F) (contour_map : Nat → ppm_image)
    (image : ppm_image) (buffer : Int → ppm_pixel) (grid : Grid) :
    (reference_output rs contour_map image buffer grid).x = (working_raster rs image buffer).x ∧
    (reference_output rs contour_map image buffer grid).y
      = (working_raster rs image buffer).y := by
  unfold reference_output
  apply for_loop_invariant (fun im : ppm_image =>
    im.x = (working_raster rs image buffer).x ∧ im.y = (working_raster rs image buffer).y)
  · intro i _ _ s hs
    have := march_row_dims STEP STEP contour_map (reference_grid rs image buffer grid)
      ((working_raster rs image buffer).y / STEP) i s
    exact ⟨this.1.trans hs.1, this.2.trans hs.2⟩
  · exact ⟨rfl, rfl⟩

/-- C6: when the source raster has `x ≤ 2048` and `y ≤ 2048`, after
`rescale_image` the task's `new_image` pointer designates the source raster, which
is unchanged, the buffer is unchanged, and the result does not depend on the
resampler; otherwise it designates a raster of `2048 x 2048` pixels. `march`
keeps the dimensions of the raster, and the raster handed to `write_ppm` after a
run with `P ≥ 1` tasks has the dimensions of the source raster in the first case
and is `2048 x 2048` in the second. -/
theorem rescale_image_dimensions {F : Type} (rs : resampler F) (contour_map : Nat → ppm_image)
    (image : ppm_image) (buffer : Int → ppm_pixel) (grid : Grid) (P : Nat) (hP : 1 ≤ P)
    (t : Nat) :
    (image.x ≤ 2048 ∧ image.y ≤ 2048 →
      (∀ st : program_state, st.image = image →
        (rescale_phase rs P t st).deref ((rescale_phase rs P t st).arguments_new_image t)
            = image ∧
        (rescale_phase rs P t st).new_image = st.new_image ∧
        ∀ rs' : resampler F, rescale_phase rs' P t st = rescale_phase rs P t st) ∧
      (output (run_phases rs contour_map P (initial_state image buffer grid))).x = image.x ∧
      (output (run_phases rs contour_map P (initial_state image buffer grid))).y = image.y) ∧
    (¬ (image.x ≤ 2048 ∧ image.y ≤ 2048) →
      (∀ st : program_state, st.image = image →
        (rescale_phase rs P t st).arguments_new_image t = image_ptr.new_image ∧
        ((rescale_phase rs P t st).deref ((rescale_phase rs P t st).arguments_new_image t)).x
            = 2048 ∧
        ((rescale_phase rs P t st).deref ((rescale_phase rs P t st).arguments_new_image t)).y
            = 2048) ∧
      (output (run_phases rs contour_map P (initial_state image buffer grid))).x = 2048 ∧
      (output (run_phases rs contour_map P (initial_state image buffer grid))).y = 2048) ∧
    (∀ (data : thread_data) (g : Grid) (im : ppm_image),
      (march data contour_map g im).x = im.x ∧ (march data contour_map g im).y = im.y) := by
  have hout := (run_phases_reference rs contour_map P hP image buffer grid).2
  have hdims := reference_output_dims rs contour_map image buffer grid
  refine ⟨?_, ?_, fun data g im => march_dims data contour_map g im⟩
  · intro h
    have hw : within_resolution image := h
    refine ⟨?_, ?_, ?_⟩
    · intro st hst
      have hr : ∀ rs' : resampler F, rescale_phase rs' P t st =
          { st with arguments_new_image :=
              fun u => if u = t then image_ptr.image else st.arguments_new_image u } := by
        intro rs'
        unfold rescale_phase
        simp only
        rw [rescale_image_within rs' _ st.image st.new_image (hst ▸ hw)]
      refine ⟨?_, ?_, ?_⟩
      · rw [hr rs]
        show program_state.deref _ (if t = t then image_ptr.image
          else st.arguments_new_image t) = image
        rw [if_pos rfl]
        exact hst
      · rw [hr rs]
      · intro rs'
        rw [hr rs', hr rs]
    · rw [hout, hdims.1]
      unfold working_raster
      rw [if_pos hw]
    · rw [hout, hdims.2]
      unfold working_raster
      rw [if_pos hw]
  · intro h
    have hw : ¬ within_resolution image := h
    refine ⟨?_, ?_, ?_⟩
    · intro st hst
      have hp : (rescale_phase rs P t st).arguments_new_image t = image_ptr.new_image := by
        show (if t = t then (rescale_image rs ⟨t, STEP, STEP, P⟩ st.image st.new_image).1
          else st.arguments_new_image t) = _
        rw [if_pos rfl, rescale_image_fst, hst, if_neg hw]
      rw [hp]
      refine ⟨rfl, ?_, ?_⟩
      · show (rescale_image rs ⟨t, STEP, STEP, P⟩ st.image st.new_image).2.x = 2048
        exact (rescale_image_beyond_dims rs t STEP STEP P st.image st.new_image (hst ▸ hw)).1
      · show (rescale_image rs ⟨t, STEP, STEP, P⟩ st.image st.new_image).2.y = 2048
        exact (rescale_image_beyond_dims rs t STEP STEP P st.image st.new_image (hst ▸ hw)).2
    · rw [hout, hdims.1]
      exact (working_raster_beyond_dims rs image buffer hw).1
    · rw [hout, hdims.2]
      exact (working_raster_beyond_dims rs image buffer hw).2

theorem rescale_image_dimensions_witness :
    (wide_image.x ≤ 2048 ∧ wide_image.y ≤ 2048 →
      (∀ st : program_state, st.image = wide_image →
        (rescale_phase grey_resampler 2 1 st).deref
            ((rescale_phase grey_resampler 2 1 st).arguments_new_image 1) = wide_image ∧
        (rescale_phase grey_resampler 2 1 st).new_image = st.new_image ∧
        ∀ rs' : resampler Nat, rescale_phase rs' 2 1 st = rescale_phase grey_resampler 2 1 st) ∧
      (output (run_phases grey_resampler white_contour_map 2
        (initial_state wide_image (fun _ => black) stale_grid))).x = wide_image.x ∧
      (output (run_phases grey_resampler white_contour_map 2
        (initial_state wide_image (fun _ => black) stale_grid))).y = wide_image.y) ∧
    (¬ (wide_image.x ≤ 2048 ∧ wide_image.y ≤ 2048) →
      (∀ st : program_state, st.image = wide_image →
        (rescale_phase grey_resampler 2 1 st).arguments_new_image 1 = image_ptr.new_image ∧
        ((rescale_phase grey_resampler 2 1 st).deref
            ((rescale_phase grey_resampler 2 1 st).arguments_new_image 1)).x = 2048 ∧
        ((rescale_phase grey_resampler 2 1 st).deref
            ((rescale_phase grey_resampler 2 1 st).arguments_new_image 1)).y = 2048) ∧
      (output (run_phases grey_resampler white_contour_map 2
        (initial_state wide_image (fun _ => black) stale_grid))).x = 2048 ∧
      (output (run_phases grey_resampler white_contour_map 2
        (initial_state wide_image (fun _ => black) stale_grid))).y = 2048) ∧
    (∀ (data : thread_data) (g : Grid) (im : ppm_image),
      (march data white_contour_map g im).x = im.x ∧
      (march data white_contour_map g im).y = im.y) :=
  rescale_image_dimensions grey_resampler white_contour_map wide_image (fun _ => black)
    stale_grid 2 (by decide) 1

/-- C12, at the input where the code departs from it: for the stencil
`oblong_contour` (`cx = 2`, `cy = 3`, pixel `(i, j)` at offset `i * 3 + j`) copied
to the offset `(0, 0)` of the `2 x 3` raster `oblong_image`, the image pixel
`(1, 0)`, at offset `(0 + 1) * 3 + (0 + 0) = 3`, gets the stencil pixel at offset
`cx * 1 + 0 = 2`, which is pixel `(0, 2)`, and not the stencil pixel `(1, 0)` at
offset `1 * 3 + 0 = 3`. -/
theorem update_image_oblong :
    (update_image oblong_image oblong_contour 0 0).data (((0 + 1) * 3 + (0 + 0) : Nat) : Int)
      = oblong_contour.data ((0 * 3 + 2 : Nat) : Int) ∧
    (update_image oblong_image oblong_contour 0 0).data (((0 + 1) * 3 + (0 + 0) : Nat) : Int)
      ≠ oblong_contour.data ((1 * 3 + 0 : Nat) : Int) := by
  decide

/-! ## The lengths of the task ranges -/

/-- The range of a task is as long as `(m + N) / P` for a remainder `m < P`. -/
theorem range_length (N P t : Nat) (hP : 0 < P) :
    ∃ m, m < P ∧ start_i (t + 1) N P = start_i t N P + (m + N) / P := by
  refine ⟨t * N % P, Nat.mod_lt _ hP, ?_⟩
  unfold start_i
  have h : (t + 1) * N = P * (t * N / P) + (t * N % P + N) := by
    rw [Nat.add_mul, Nat.one_mul, ← Nat.add_assoc, Nat.div_add_mod]
  rw [h, Nat.mul_add_div hP]

/-- Rounding `N / P` up adds at most one to rounding it down. -/
theorem ceil_le_floor_succ (N P : Nat) (hP : 0 < P) : (N + P - 1) / P ≤ N / P + 1 := by
  have h1 : N + P - 1 < (N / P + 2) * P := by
    have h2 : N < (N / P + 1) * P := by
      rw [Nat.mul_comm]
      exact Nat.lt_mul_div_succ N hP
    rw [Nat.add_mul] at h2 ⊢
    omega
  have h3 := (Nat.div_lt_iff_lt_mul hP).mpr h1
  omega

/-- The length of the range of a task is `N / P` rounded down or rounded up. -/
theorem range_length_floor_or_ceil (N P t : Nat) (hP : 0 < P) (ht : t < P) :
    start_i t N P ≤ end_i t N P ∧
    (end_i t N P - start_i t N P = N / P ∨
      end_i t N P - start_i t N P = (N + P - 1) / P) := by
  rw [end_i_eq_start_i N P t hP ht]
  obtain ⟨m, hm, h⟩ := range_length N P t hP
  have h1 : N / P ≤ (m + N) / P := Nat.div_le_div_right (Nat.le_add_left N m)
  have h2 : (m + N) / P ≤ (N + P - 1) / P := Nat.div_le_div_right (by omega)
  have h3 := ceil_le_floor_succ N P hP
  rw [h]
  generalize (m + N) / P = e at h1 h2 ⊢
  generalize (N + P - 1) / P = c at h2 h3 ⊢
  generalize N / P = f at h1 h3 ⊢
  constructor
  · omega
  · omega

/-- C13: for `P ≥ 1` the task ranges are contiguous and nearly equal: the first
starts at `0`, the last ends at `N`, each range ends where the next one starts,
every length `end_i t - start_i t` is `N / P` rounded down or rounded up, and the
lengths of two tasks differ by at most `1`. -/
theorem task_ranges_contiguous (N P : Nat) (hP : 1 ≤ P) :
    start_i 0 N P = 0 ∧
    end_i (P - 1) N P = N ∧
    (∀ t, t < P - 1 → end_i t N P = start_i (t + 1) N P) ∧
    (∀ t, t < P → start_i t N P ≤ end_i t N P ∧
      (end_i t N P - start_i t N P = N / P ∨
        end_i t N P - start_i t N P = (N + P - 1) / P)) ∧
    (∀ t u, t < P → u < P →
      end_i t N P - start_i t N P ≤ end_i u N P - start_i u N P + 1) := by
  refine ⟨start_i_zero N P, ?_, ?_, ?_, ?_⟩
  · rw [end_i_eq_start_i N P (P - 1) hP (by omega), Nat.sub_add_cancel hP]
    exact start_i_last N P hP
  · intro t ht
    exact end_i_eq_start_i N P t hP (by omega)
  · intro t ht
    exact range_length_floor_or_ceil N P t hP ht
  · intro t u ht hu
    have h1 := (range_length_floor_or_ceil N P t hP ht).2
    have h2 := (range_length_floor_or_ceil N P u hP hu).2
    have h3 := ceil_le_floor_succ N P hP
    have h4 : N / P ≤ (N + P - 1) / P := Nat.div_le_div_right (by omega)
    generalize end_i t N P - start_i t N P = lt at h1 ⊢
    generalize end_i u N P - start_i u N P = lu at h2 ⊢
    generalize (N + P - 1) / P = c at h1 h2 h3 h4
    generalize N / P = f at h1 h2 h3 h4
    omega

theorem task_ranges_contiguous_witness :
    start_i 0 10 4 = 0 ∧
    end_i (4 - 1) 10 4 = 10 ∧
    (∀ t, t < 4 - 1 → end_i t 10 4 = start_i (t + 1) 10 4) ∧
    (∀ t, t < 4 → start_i t 10 4 ≤ end_i t 10 4 ∧
      (end_i t 10 4 - start_i t 10 4 = 10 / 4 ∨
        end_i t 10 4 - start_i t 10 4 = (10 + 4 - 1) / 4)) ∧
    (∀ t u, t < 4 → u < 4 →
      end_i t 10 4 - start_i t 10 4 ≤ end_i u 10 4 - start_i u 10 4 + 1) :=
  task_ranges_contiguous 10 4 (by decide)

/-! ## What one task stores into the grid -/

/-- C14: the values `sample_grid` leaves in the boundary row `grid[p][j]`,
`j < q`, and in the corner `grid[p][q]` are the same for every task id, every
task count and every initial grid (the corner is `0`); and a grid row other than
`p` that is outside the range of the task is left as it was. -/
theorem sample_grid_shared_row (step_x step_y : Nat) (image : ppm_image) :
    (∀ (t1 t2 P1 P2 : Nat) (g1 g2 : Grid) (j : Nat), j ≤ image.y / step_y →
      sample_grid ⟨t1, step_x, step_y, P1⟩ image g1 (image.x / step_x) j
        = sample_grid ⟨t2, step_x, step_y, P2⟩ image g2 (image.x / step_x) j) ∧
    (∀ (t P : Nat) (g : Grid),
      sample_grid ⟨t, step_x, step_y, P⟩ image g (image.x / step_x) (image.y / step_y) = 0) ∧
    (∀ (t P : Nat) (g : Grid) (a b : Nat), a ≠ image.x / step_x →
      ¬ (start_i t (image.x / step_x) P ≤ a ∧ a < end_i t (image.x / step_x) P) →
      sample_grid ⟨t, step_x, step_y, P⟩ image g a b = g a b) := by
  refine ⟨?_, ?_, ?_⟩
  · intro t1 t2 P1 P2 g1 g2 j hj
    rw [sample_grid_cell, sample_grid_cell, if_pos ⟨Or.inl rfl, hj⟩, if_pos ⟨Or.inl rfl, hj⟩]
  · intro t P g
    rw [sample_grid_cell, if_pos ⟨Or.inl rfl, Nat.le_refl _⟩]
    unfold sampled
    rw [if_pos rfl, if_pos rfl]
  · intro t P g a b ha hr
    rw [sample_grid_cell, if_neg]
    rintro ⟨h | h, _⟩
    · exact ha h
    · exact hr h

theorem sample_grid_shared_row_witness :
    (∀ (t1 t2 P1 P2 : Nat) (g1 g2 : Grid) (j : Nat), j ≤ striped_image.y / 8 →
      sample_grid ⟨t1, 8, 8, P1⟩ striped_image g1 (striped_image.x / 8) j
        = sample_grid ⟨t2, 8, 8, P2⟩ striped_image g2 (striped_image.x / 8) j) ∧
    (∀ (t P : Nat) (g : Grid),
      sample_grid ⟨t, 8, 8, P⟩ striped_image g (striped_image.x / 8) (striped_image.y / 8)
        = 0) ∧
    (∀ (t P : Nat) (g : Grid) (a b : Nat), a ≠ striped_image.x / 8 →
      ¬ (start_i t (striped_image.x / 8) P ≤ a ∧ a < end_i t (striped_image.x / 8) P) →
      sample_grid ⟨t, 8, 8, P⟩ striped_image g a b = g a b) :=
  sample_grid_shared_row 8 8 striped_image

/-! ## Rescaling a raster that is beyond the working resolution in one direction -/

/-- C16, at the input where the code departs from it: for the source raster
`wide_image` (`x = 4096`, `y = 8`) the raster `rescale_image` produces has
`y = 2048`, more than the `8` of the source. -/
theorem rescale_image_wide :
    (rescale_image grey_resampler ⟨0, STEP, STEP, 1⟩ wide_image
      ⟨RESCALE_X, RESCALE_Y, fun _ => black⟩).1 = image_ptr.new_image ∧
    (rescale_image grey_resampler ⟨0, STEP, STEP, 1⟩ wide_image
      ⟨RESCALE_X, RESCALE_Y, fun _ => black⟩).2.y = 2048 ∧
    ¬ ((rescale_image grey_resampler ⟨0, STEP, STEP, 1⟩ wide_image
      ⟨RESCALE_X, RESCALE_Y, fun _ => black⟩).2.y ≤ wide_image.y) := by
  have hw : ¬ within_resolution wide_image := by decide
  have hy := (rescale_image_beyond_dims grey_resampler 0 STEP STEP 1 wide_image
    ⟨RESCALE_X, RESCALE_Y, fun _ => black⟩ hw).2
  refine ⟨?_, hy, ?_⟩
  · rw [rescale_image_fst, if_neg hw]
  · rw [hy]
    decide

/-! ## The grid holds zeros and ones -/

theorem dark_le_one (px : ppm_pixel) : (dark px).val ≤ 1 := by
  unfold dark
  split
  · exact Nat.le_refl 1
  · exact Nat.zero_le 1

theorem sampled_le_one (step_x step_y : Nat) (image : ppm_image) (a b : Nat) :
    (sampled step_x step_y image a b).val ≤ 1 := by
  unfold sampled
  split
  · split
    · exact Nat.zero_le 1
    · exact dark_le_one _
  · split
    · exact dark_le_one _
    · exact dark_le_one _

/-- C17: after the Sample stage (`P ≥ 1`, any initial grid) every cell `(i, j)`
with `i ≤ p`, `j ≤ q` is `0` or `1`; hence for every cell `i < p`, `j < q` the code
`march` computes is `8a + 4b + 2c + d` without reduction modulo 256 and is at most
`15`, and two cells with the same code have the same four corner values. -/
theorem sample_stage_binary (step_x step_y P : Nat) (hP : 1 ≤ P) (image : ppm_image)
    (grid : Grid) :
    (∀ i j, i ≤ image.x / step_x → j ≤ image.y / step_y →
      sample_stage step_x step_y P image grid i j = 0 ∨
      sample_stage step_x step_y P image grid i j = 1) ∧
    (∀ i j, i < image.x / step_x → j < image.y / step_y →
      config (sample_stage step_x step_y P image grid) i j =
        8 * (sample_stage step_x step_y P image grid i j).val
        + 4 * (sample_stage step_x step_y P image grid i (j + 1)).val
        + 2 * (sample_stage step_x step_y P image grid (i + 1) (j + 1)).val
        + (sample_stage step_x step_y P image grid (i + 1) j).val ∧
      config (sample_stage step_x step_y P image grid) i j ≤ 15) ∧
    (∀ i j i' j', i < image.x / step_x → j < image.y / step_y →
      i' < image.x / step_x → j' < image.y / step_y →
      config (sample_stage step_x step_y P image grid) i j
        = config (sample_stage step_x step_y P image grid) i' j' →
      sample_stage step_x step_y P image grid i j
        = sample_stage step_x step_y P image grid i' j' ∧
      sample_stage step_x step_y P image grid i (j + 1)
        = sample_stage step_x step_y P image grid i' (j' + 1) ∧
      sample_stage step_x step_y P image grid (i + 1) (j + 1)
        = sample_stage step_x step_y P image grid (i' + 1) (j' + 1) ∧
      sample_stage step_x step_y P image grid (i + 1) j
        = sample_stage step_x step_y P image grid (i' + 1) j') := by
  have hle : ∀ i j, i ≤ image.x / step_x → j ≤ image.y / step_y →
      (sample_stage step_x step_y P image grid i j).val ≤ 1 := by
    intro i j hi hj
    rw [sample_stage_apply step_x step_y P hP, if_pos ⟨hi, hj⟩]
    exact sampled_le_one step_x step_y image i j
  have hcfg : ∀ i j, i < image.x / step_x → j < image.y / step_y →
      config (sample_stage step_x step_y P image grid) i j =
        8 * (sample_stage step_x step_y P image grid i j).val
        + 4 * (sample_stage step_x step_y P image grid i (j + 1)).val
        + 2 * (sample_stage step_x step_y P image grid (i + 1) (j + 1)).val
        + (sample_stage step_x step_y P image grid (i + 1) j).val ∧
      config (sample_stage step_x step_y P image grid) i j < 16 :=
    fun i j hi hj => config_eq _ i j (hle i j (Nat.le_of_lt hi) (Nat.le_of_lt hj))
      (hle i (j + 1) (Nat.le_of_lt hi) hj) (hle (i + 1) (j + 1) hi hj)
      (hle (i + 1) j hi (Nat.le_of_lt hj))
  refine ⟨?_, ?_, ?_⟩
  · intro i j hi hj
    have h := hle i j hi hj
    rcases Nat.le_one_iff_eq_zero_or_eq_one.mp h with h0 | h1
    · exact Or.inl (Fin.ext h0)
    · exact Or.inr (Fin.ext h1)
  · intro i j hi hj
    exact ⟨(hcfg i j hi hj).1, Nat.le_of_lt_succ (hcfg i j hi hj).2⟩
  · intro i j i' j' hi hj hi' hj' h
    rw [(hcfg i j hi hj).1, (hcfg i' j' hi' hj').1] at h
    have a1 := hle i j (Nat.le_of_lt hi) (Nat.le_of_lt hj)
    have a2 := hle i (j + 1) (Nat.le_of_lt hi) hj
    have a3 := hle (i + 1) (j + 1) hi hj
    have a4 := hle (i + 1) j hi (Nat.le_of_lt hj)
    have b1 := hle i' j' (Nat.le_of_lt hi') (Nat.le_of_lt hj')
    have b2 := hle i' (j' + 1) (Nat.le_of_lt hi') hj'
    have b3 := hle (i' + 1) (j' + 1) hi' hj'
    have b4 := hle (i' + 1) j' hi' (Nat.le_of_lt hj')
    refine ⟨Fin.ext ?_, Fin.ext ?_, Fin.ext ?_, Fin.ext ?_⟩ <;> omega

theorem sample_stage_binary_witness :
    (∀ i j, i ≤ striped_image.x / 8 → j ≤ striped_image.y / 8 →
      sample_stage 8 8 2 striped_image stale_grid i j = 0 ∨
      sample_stage 8 8 2 striped_image stale_grid i j = 1) ∧
    (∀ i j, i < striped_image.x / 8 → j < striped_image.y / 8 →
      config (sample_stage 8 8 2 striped_image stale_grid) i j =
        8 * (sample_stage 8 8 2 striped_image stale_grid i j).val
        + 4 * (sample_stage 8 8 2 striped_image stale_grid i (j + 1)).val
        + 2 * (sample_stage 8 8 2 striped_image stale_grid (i + 1) (j + 1)).val
        + (sample_stage 8 8 2 striped_image stale_grid (i + 1) j).val ∧
      config (sample_stage 8 8 2 striped_image stale_grid) i j ≤ 15) ∧
    (∀ i j i' j', i < striped_image.x / 8 → j < striped_image.y / 8 →
      i' < striped_image.x / 8 → j' < striped_image.y / 8 →
      config (sample_stage 8 8 2 striped_image stale_grid) i j
        = config (sample_stage 8 8 2 striped_image stale_grid) i' j' →
      sample_stage 8 8 2 striped_image stale_grid i j
        = sample_stage 8 8 2 striped_image stale_grid i' j' ∧
      sample_stage 8 8 2 striped_image stale_grid i (j + 1)
        = sample_stage 8 8 2 striped_image stale_grid i' (j' + 1) ∧
      sample_stage 8 8 2 striped_image stale_grid (i + 1) (j + 1)
        = sample_stage 8 8 2 striped_image stale_grid (i' + 1) (j' + 1) ∧
      sample_stage 8 8 2 striped_image stale_grid (i + 1) j
        = sample_stage 8 8 2 striped_image stale_grid (i' + 1) j') :=
  sample_stage_binary 8 8 2 (by decide) striped_image stale_grid

/-! ## The pixels one task stamps -/

/-- A pixel of a cell is a pixel of the raster. -/
theorem cell_offset_lt (X Y s i j a b : Nat) (hi : i < X / s) (hj : j < Y / s)
    (ha : a < s) (hb : b < s) : (i * s + a) * Y + (j * s + b) < X * Y := by
  have h1 := cell_lt X s i a hi ha
  have h2 := cell_lt Y s j b hj hb
  have h3 : (i * s + a + 1) * Y ≤ X * Y := Nat.mul_le_mul_right Y h1
  rw [Nat.add_mul, Nat.one_mul] at h3
  omega

/-- The pixels of the cell `(i, j)` of a task lie in the region of the task. -/
theorem cell_in_task_region (s P t : Nat) (image : ppm_image) (i j a b : Nat)
    (hlo : start_i t (image.x / s) P ≤ i) (hhi : i < end_i t (image.x / s) P)
    (hj : j < image.y / s) (ha : a < s) (hb : b < s) :
    task_region s P t image (((i * s + a) * image.y + (j * s + b) : Nat) : Int) := by
  refine ⟨i * s + a, j * s + b, ?_, ?_, ?_, rfl⟩
  · exact Nat.le_trans (Nat.mul_le_mul_right s hlo) (Nat.le_add_right _ _)
  · have h1 : (i + 1) * s ≤ end_i t (image.x / s) P * s := Nat.mul_le_mul_right s hhi
    rw [Nat.add_mul, Nat.one_mul] at h1
    omega
  · have h1 : (j + 1) * s ≤ image.y / s * s := Nat.mul_le_mul_right s hj
    rw [Nat.add_mul, Nat.one_mul] at h1
    omega

/-- One call of `march` leaves every pixel outside the region of its task alone. -/
theorem march_outside_region (t s P : Nat) (contour_map : Nat → ppm_image) (grid : Grid)
    (image : ppm_image)
    (hc : ∀ i j, i < image.x / s → j < image.y / s →
      (contour_map (config grid i j)).x = s ∧ (contour_map (config grid i j)).y = s)
    (n : Int) (hn : ¬ task_region s P t image n) :
    (march ⟨t, s, s, P⟩ contour_map grid image).data n = image.data n := by
  rw [march_eq]
  have hend := end_i_le (image.x / s) P t
  apply for_loop_obs_frame (fun im : ppm_image => im.data n) (fun im => im.y = image.y)
  · intro i _ hi im him
    apply for_loop_invariant (fun im : ppm_image => im.y = image.y)
    · intro j _ _ s' hs'
      exact (update_image_dims s' _ _ _).2.trans hs'
    · exact him
  · intro i hlo hi im him
    apply for_loop_obs_frame (fun im : ppm_image => im.data n) (fun im => im.y = image.y)
    · intro j _ _ im him
      exact (update_image_dims im _ _ _).2.trans him
    · intro j _ hj im him
      apply update_image_frame
      intro a b ha hb h
      have hd := hc i j (by omega) hj
      rw [hd.1] at ha
      rw [hd.2] at hb
      apply hn
      rw [h, him, Nat.add_assoc]
      exact cell_in_task_region s P t image i j a b hlo hi hj ha hb
    · exact him
  · rfl

/-- The regions of two different tasks share no pixel. -/
theorem task_regions_disjoint (s P : Nat) (hP : 0 < P) (image : ppm_image) (t1 t2 : Nat)
    (ht1 : t1 < P) (ht2 : t2 < P) (hne : t1 ≠ t2) (n : Int) :
    ¬ (task_region s P t1 image n ∧ task_region s P t2 image n) := by
  rintro ⟨⟨r1, c1, a1, b1, d1, e1⟩, ⟨r2, c2, a2, b2, d2, e2⟩⟩
  have hq : image.y / s * s ≤ image.y := Nat.div_mul_le_self image.y s
  have heq : r1 * image.y + c1 = r2 * image.y + c2 := by
    have := e1.symm.trans e2
    exact Int.ofNat_inj.mp this
  have hr := (offset_inj image.y r1 c1 r2 c2 (by omega) (by omega) heq).1
  rw [end_i_eq_start_i _ P t1 hP ht1] at b1
  rw [end_i_eq_start_i _ P t2 hP ht2] at b2
  rcases Nat.lt_or_gt_of_ne hne with h | h
  · have h1 : start_i (t1 + 1) (image.x / s) P * s ≤ start_i t2 (image.x / s) P * s :=
      Nat.mul_le_mul_right s (start_i_mono _ P h)
    omega
  · have h1 : start_i (t2 + 1) (image.x / s) P * s ≤ start_i t1 (image.x / s) P * s :=
      Nat.mul_le_mul_right s (start_i_mono _ P h)
    omega

/-- C15: with `step_x = step_y = s` and stencils of `s x s` pixels for the cells
of the grid, `march` for task `t` leaves every pixel unchanged whose offset is not
that of a pixel in the rows `[start_t * s, end_t * s)` and the columns
`[0, q * s)`; and for `P ≥ 1` the regions of two different tasks share no
pixel. -/
theorem march_task_frame (t s P : Nat) (hP : 1 ≤ P) (contour_map : Nat → ppm_image)
    (grid : Grid) (image : ppm_image)
    (hc : ∀ i j, i < image.x / s → j < image.y / s →
      (contour_map (config grid i j)).x = s ∧ (contour_map (config grid i j)).y = s) :
    (∀ n : Int, ¬ task_region s P t image n →
      (march ⟨t, s, s, P⟩ contour_map grid image).data n = image.data n) ∧
    (∀ t1 t2 : Nat, t1 < P → t2 < P → t1 ≠ t2 → ∀ n : Int,
      ¬ (task_region s P t1 image n ∧ task_region s P t2 image n)) :=
  ⟨fun n hn => march_outside_region t s P contour_map grid image hc n hn,
    fun t1 t2 ht1 ht2 hne n => task_regions_disjoint s P hP image t1 t2 ht1 ht2 hne n⟩

theorem march_task_frame_witness :
    (∀ n : Int, ¬ task_region 2 3 1 small_image n →
      (march ⟨1, 2, 2, 3⟩ small_contour_map checker_grid small_image).data n
        = small_image.data n) ∧
    (∀ t1 t2 : Nat, t1 < 3 → t2 < 3 → t1 ≠ t2 → ∀ n : Int,
      ¬ (task_region 2 3 t1 small_image n ∧ task_region 2 3 t2 small_image n)) :=
  march_task_frame 1 2 3 (by decide) small_contour_map checker_grid small_image
    (fun _ _ _ _ => ⟨rfl, rfl⟩)

/-! ## The accesses of one task of the Stamp stage -/

/-- The offsets `update_image` stores to are those of the pixels of the
rectangle. -/
theorem update_image_writes_mem (image contour : ppm_image) (x y : Nat) (n : Int)
    (hn : n ∈ update_image_writes image contour x y) :
    ∃ a b, a < contour.x ∧ b < contour.y ∧ n = (((x + a) * image.y + y + b : Nat) : Int) := by
  unfold update_image_writes at hn
  revert n
  apply for_loop_invariant (fun writes : List Int => ∀ n ∈ writes,
    ∃ a b, a < contour.x ∧ b < contour.y ∧ n = (((x + a) * image.y + y + b : Nat) : Int))
  · intro a _ ha writes hw
    apply for_loop_invariant (fun writes : List Int => ∀ n ∈ writes,
      ∃ a b, a < contour.x ∧ b < contour.y ∧ n = (((x + a) * image.y + y + b : Nat) : Int))
    · intro b _ hb writes hw n hn
      rcases List.mem_append.mp hn with h | h
      · exact hw n h
      · exact ⟨a, b, ha, hb, List.mem_singleton.mp h⟩
    · exact hw
  · intro n hn
    cases hn

/-- C18: for a raster with `X ≤ 2048` and `Y ≤ 2048`, step 8 and stencils of
`8 x 8` pixels for the cells of the grid, every grid cell `march` loads has row
and column index at most `256`, and every offset `update_image` stores to during
`march` is an offset of the raster, `0 ≤ n < X * Y`. -/
theorem march_accesses_in_bounds (t P : Nat) (contour_map : Nat → ppm_image) (grid : Grid)
    (image : ppm_image) (hx : image.x ≤ 2048) (hy : image.y ≤ 2048)
    (hc : ∀ i j, i < image.x / 8 → j < image.y / 8 →
      (contour_map (config grid i j)).x = 8 ∧ (contour_map (config grid i j)).y = 8) :
    (∀ rc ∈ march_grid_reads ⟨t, 8, 8, P⟩ image, rc.1 ≤ 256 ∧ rc.2 ≤ 256) ∧
    (∀ n ∈ march_writes ⟨t, 8, 8, P⟩ contour_map grid image,
      0 ≤ n ∧ n < ((image.x * image.y : Nat) : Int)) := by
  have hend := end_i_le (image.x / 8) P t
  constructor
  · unfold march_grid_reads
    simp only
    apply for_loop_invariant (fun reads : List (Nat × Nat) =>
      ∀ rc ∈ reads, rc.1 ≤ 256 ∧ rc.2 ≤ 256)
    · intro i _ hi reads hr
      apply for_loop_invariant (fun reads : List (Nat × Nat) =>
        ∀ rc ∈ reads, rc.1 ≤ 256 ∧ rc.2 ≤ 256)
      · intro j _ hj reads hr rc hrc
        rcases List.mem_append.mp hrc with h | h
        · exact hr rc h
        · simp only [List.mem_cons, List.mem_singleton, List.not_mem_nil, or_false] at h
          rcases h with h | h | h | h <;> subst h <;> constructor <;> simp only <;> omega
      · exact hr
    · intro rc hrc
      cases hrc
  · unfold march_writes
    simp only
    apply for_loop_invariant (fun writes : List Int =>
      ∀ n ∈ writes, 0 ≤ n ∧ n < ((image.x * image.y : Nat) : Int))
    · intro i _ hi writes hw
      apply for_loop_invariant (fun writes : List Int =>
        ∀ n ∈ writes, 0 ≤ n ∧ n < ((image.x * image.y : Nat) : Int))
      · intro j _ hj writes hw n hn
        rcases List.mem_append.mp hn with h | h
        · exact hw n h
        · obtain ⟨a, b, ha, hb, rfl⟩ := update_image_writes_mem image _ _ _ n h
          have hd := hc i j (by omega) hj
          have hd' : (contour_map ((8 * (grid i j).val + 4 * (grid i (j + 1)).val
              + 2 * (grid (i + 1) (j + 1)).val + 1 * (grid (i + 1) j).val) % 256)).x = 8 ∧
              (contour_map ((8 * (grid i j).val + 4 * (grid i (j + 1)).val
              + 2 * (grid (i + 1) (j + 1)).val + 1 * (grid (i + 1) j).val) % 256)).y = 8 := hd
          rw [hd'.1] at ha
          rw [hd'.2] at hb
          constructor
          · exact Int.ofNat_nonneg _
          · have := cell_offset_lt image.x image.y 8 i j a b (by omega) hj ha hb
            rw [Nat.add_assoc]
            exact_mod_cast this
      · exact hw
    · intro n hn
      cases hn

theorem march_accesses_in_bounds_witness :
    (∀ rc ∈ march_grid_reads ⟨1, 8, 8, 2⟩ striped_image, rc.1 ≤ 256 ∧ rc.2 ≤ 256) ∧
    (∀ n ∈ march_writes ⟨1, 8, 8, 2⟩ white_contour_map stale_grid striped_image,
      0 ≤ n ∧ n < ((striped_image.x * striped_image.y : Nat) : Int)) :=
  march_accesses_in_bounds 1 2 white_contour_map stale_grid striped_image (by decide)
    (by decide) (fun _ _ _ _ => ⟨rfl, rfl⟩)
end MarchingSquares
